import Mathlib

/-!
Shallow embedding of the whatsdown connection hub
(`internal/server` hub plus `internal/models`): the client table,
user/presence table, conversation logs and bounded outbound queues,
together with the hub operations `registerClient`, `unregisterClient`,
`handleInboundMessageWithSender`, `handleTypingEvent`, `sendToClient`,
`GetConversations`, `GetConversationMessages` and `SearchUsers`.

Go maps are embedded as association lists with unique keys; Go channel
queues (`Send chan []byte`, capacity 256) are lists of frames with a
`closed` flag; `time.Now()` is an explicit `now : Nat` argument; uuid
generation is a `nextId` counter threaded through the hub state.  A Go
runtime panic (send on a closed channel, close of a closed or nil
channel) is modelled by an absorbing `panicked` flag.
-/

set_option maxRecDepth 8192

namespace Whatsdown

/-! ### Association-list helpers (the embedding of Go maps) -/

def alookup {α β : Type} [DecidableEq α] (k : α) : List (α × β) → Option β
  | [] => none
  | (k', v) :: l => if k = k' then some v else alookup k l

def aupsert {α β : Type} [DecidableEq α] (k : α) (v : β) : List (α × β) → List (α × β)
  | [] => [(k, v)]
  | (k', v') :: l => if k = k' then (k, v) :: l else (k', v') :: aupsert k v l

def aerase {α β : Type} [DecidableEq α] (k : α) : List (α × β) → List (α × β)
  | [] => []
  | (k', v') :: l => if k = k' then l else (k', v') :: aerase k l

/-- The keys of an association list are pairwise distinct. -/
def keysNodup {α β : Type} (l : List (α × β)) : Prop := (l.map Prod.fst).Nodup

instance {α β : Type} [DecidableEq α] (l : List (α × β)) : Decidable (keysNodup l) :=
  inferInstanceAs (Decidable ((l.map Prod.fst).Nodup))

section ALemmas

variable {α β : Type} [DecidableEq α]

theorem alookup_aupsert_self (k : α) (v : β) (l : List (α × β)) :
    alookup k (aupsert k v l) = some v := by
  induction l with
  | nil => simp [aupsert, alookup]
  | cons p l ih =>
    obtain ⟨k', v'⟩ := p
    by_cases h : k = k' <;> simp [aupsert, alookup, h, ih]

theorem alookup_aupsert_ne (k k' : α) (v : β) (l : List (α × β)) (h : k' ≠ k) :
    alookup k' (aupsert k v l) = alookup k' l := by
  induction l with
  | nil => simp [aupsert, alookup, h]
  | cons p l ih =>
    obtain ⟨k0, v0⟩ := p
    by_cases hk : k = k0
    · subst hk; simp [aupsert, alookup, h]
    · by_cases hk' : k' = k0 <;> simp [aupsert, alookup, hk, hk', ih]

theorem alookup_aerase_ne (k k' : α) (l : List (α × β)) (h : k' ≠ k) :
    alookup k' (aerase k l) = alookup k' l := by
  induction l with
  | nil => simp [aerase]
  | cons p l ih =>
    obtain ⟨k0, v0⟩ := p
    by_cases hk : k = k0
    · subst hk; simp [aerase, alookup, h]
    · by_cases hk' : k' = k0 <;> simp [aerase, alookup, hk, hk', ih]

theorem alookup_not_mem_keys (k : α) (l : List (α × β))
    (h : k ∉ l.map Prod.fst) : alookup k l = none := by
  induction l with
  | nil => rfl
  | cons p l ih =>
    obtain ⟨k0, v0⟩ := p
    simp only [List.map_cons, List.mem_cons] at h
    push_neg at h
    simp [alookup, h.1, ih h.2]

theorem alookup_aerase_self (k : α) (l : List (α × β)) (h : keysNodup l) :
    alookup k (aerase k l) = none := by
  induction l with
  | nil => rfl
  | cons p l ih =>
    obtain ⟨k0, v0⟩ := p
    rw [keysNodup, List.map_cons, List.nodup_cons] at h
    by_cases hk : k = k0
    · subst hk
      have he : aerase k ((k, v0) :: l) = l := by simp [aerase]
      rw [he]
      exact alookup_not_mem_keys k l h.1
    · simp [aerase, alookup, hk, ih h.2]

theorem alookup_aerase_none (k k' : α) (l : List (α × β))
    (h : alookup k' l = none) : alookup k' (aerase k l) = none := by
  induction l with
  | nil => rfl
  | cons p l ih =>
    obtain ⟨k0, v0⟩ := p
    simp only [alookup] at h
    by_cases hk' : k' = k0
    · simp [hk'] at h
    · simp only [if_neg hk'] at h
      by_cases hk : k = k0
      · subst hk
        have he : aerase k ((k, v0) :: l) = l := by simp [aerase]
        rw [he]
        exact h
      · simp [aerase, alookup, hk, hk', ih h]

theorem alookup_mem (k : α) (v : β) (l : List (α × β))
    (h : alookup k l = some v) : (k, v) ∈ l := by
  induction l with
  | nil => simp [alookup] at h
  | cons p l ih =>
    obtain ⟨k0, v0⟩ := p
    simp only [alookup] at h
    by_cases hk : k = k0
    · simp only [if_pos hk] at h
      subst hk
      cases h
      exact List.mem_cons_self _ _
    · simp only [if_neg hk] at h
      exact List.mem_cons_of_mem _ (ih h)

theorem mem_aupsert (k : α) (v : β) (p : α × β) (l : List (α × β))
    (h : p ∈ aupsert k v l) : p = (k, v) ∨ p ∈ l := by
  induction l with
  | nil => exact Or.inl (by simpa [aupsert] using h)
  | cons q l ih =>
    obtain ⟨k0, v0⟩ := q
    by_cases hk : k = k0
    · subst hk
      have he : aupsert k v ((k, v0) :: l) = (k, v) :: l := by simp [aupsert]
      rw [he, List.mem_cons] at h
      rcases h with h | h
      · exact Or.inl h
      · exact Or.inr (List.mem_cons_of_mem _ h)
    · simp only [aupsert, if_neg hk, List.mem_cons] at h
      rcases h with h | h
      · exact Or.inr (by simp [h])
      · rcases ih h with h' | h'
        · exact Or.inl h'
        · exact Or.inr (List.mem_cons_of_mem _ h')

theorem mem_aerase (k : α) (p : α × β) (l : List (α × β))
    (h : p ∈ aerase k l) : p ∈ l := by
  induction l with
  | nil => simp [aerase] at h
  | cons q l ih =>
    obtain ⟨k0, v0⟩ := q
    by_cases hk : k = k0
    · subst hk
      have he : aerase k ((k, v0) :: l) = l := by simp [aerase]
      rw [he] at h
      exact List.mem_cons_of_mem _ h
    · simp only [aerase, if_neg hk, List.mem_cons] at h
      rcases h with h | h
      · simp [h]
      · exact List.mem_cons_of_mem _ (ih h)

theorem keysNodup_aupsert (k : α) (v : β) (l : List (α × β))
    (h : keysNodup l) : keysNodup (aupsert k v l) := by
  induction l with
  | nil => simp [aupsert, keysNodup]
  | cons q l ih =>
    obtain ⟨k0, v0⟩ := q
    rw [keysNodup, List.map_cons, List.nodup_cons] at h
    by_cases hk : k = k0
    · subst hk
      have he : aupsert k v ((k, v0) :: l) = (k, v) :: l := by simp [aupsert]
      rw [keysNodup, he, List.map_cons, List.nodup_cons]
      exact h
    · rw [keysNodup, aupsert, if_neg hk, List.map_cons, List.nodup_cons]
      constructor
      · intro hmem
        rcases List.mem_map.mp hmem with ⟨p, hp, hfst⟩
        rcases mem_aupsert k v p l hp with h' | h'
        · subst h'
          exact hk hfst
        · exact h.1 (hfst ▸ List.mem_map_of_mem Prod.fst h')
      · exact ih h.2

theorem keysNodup_aerase (k : α) (l : List (α × β))
    (h : keysNodup l) : keysNodup (aerase k l) := by
  induction l with
  | nil => simp [aerase, keysNodup]
  | cons q l ih =>
    obtain ⟨k0, v0⟩ := q
    rw [keysNodup, List.map_cons, List.nodup_cons] at h
    by_cases hk : k = k0
    · subst hk
      have he : aerase k ((k, v0) :: l) = l := by simp [aerase]
      rw [keysNodup, he]
      exact h.2
    · rw [keysNodup, aerase, if_neg hk, List.map_cons, List.nodup_cons]
      constructor
      · intro hmem
        rcases List.mem_map.mp hmem with ⟨p, hp, hfst⟩
        exact h.1 (hfst ▸ List.mem_map_of_mem Prod.fst (mem_aerase k p l hp))
      · exact ih h.2

theorem mem_aerase_of_mem (k : α) (p : α × β) (l : List (α × β))
    (hp : p ∈ l) (hk : p.1 ≠ k) : p ∈ aerase k l := by
  induction l with
  | nil => simp at hp
  | cons q rest ih =>
    obtain ⟨k0, v0⟩ := q
    rcases List.mem_cons.mp hp with hpe | hpe
    · subst hpe
      have hk0 : ¬ k = k0 := fun he => hk (by rw [he])
      rw [aerase, if_neg hk0]
      exact List.mem_cons_self _ _
    · by_cases hke : k = k0
      · rw [aerase, if_pos hke]
        exact hpe
      · rw [aerase, if_neg hke]
        exact List.mem_cons_of_mem _ (ih hpe)

theorem mem_aerase_key (k : α) (p : α × β) (l : List (α × β)) (h : keysNodup l)
    (hp : p ∈ aerase k l) : p.1 ≠ k := by
  induction l with
  | nil => simp [aerase] at hp
  | cons q l ih =>
    obtain ⟨k0, v0⟩ := q
    rw [keysNodup, List.map_cons, List.nodup_cons] at h
    by_cases hk : k = k0
    · subst hk
      have he : aerase k ((k, v0) :: l) = l := by simp [aerase]
      rw [he] at hp
      intro hcontr
      apply h.1
      rw [← hcontr]
      exact List.mem_map.mpr ⟨p, hp, rfl⟩
    · simp only [aerase, if_neg hk, List.mem_cons] at hp
      rcases hp with hp | hp
      · subst hp
        exact fun hc => hk hc.symm
      · exact ih h.2 hp

theorem alookup_cons_self {α β : Type} [DecidableEq α] (k : α) (v : β) (l : List (α × β)) :
    alookup k ((k, v) :: l) = some v := by
  simp [alookup]

theorem aupsert_aupsert {α β : Type} [DecidableEq α] (k : α) (v w : β) (l : List (α × β)) :
    aupsert k v (aupsert k w l) = aupsert k v l := by
  induction l with
  | nil => simp [aupsert]
  | cons p rest ih =>
    obtain ⟨k0, v0⟩ := p
    by_cases hk : k = k0
    · subst hk
      simp [aupsert]
    · simp [aupsert, hk, ih]

end ALemmas

/-! ### Data model (from `internal/models/models.go` and the `server` package) -/

/-- Capacity of a client's outbound queue: `Send: make(chan []byte, 256)`. -/
def queueCap : Nat := 256

/-- `models.Message`: id is the uuid (embedded as a counter value),
`status` is `"sent"` or `"delivered"`. -/
structure Message where
  id : Nat
  fromU : String
  toU : String
  content : String
  timestamp : Nat
  status : String
deriving DecidableEq, Repr

/-- One wire envelope queued on a client's `Send` channel, tagged by the
`WSMessage.Type` field (`message`, `typing`, `status`, `ack`). -/
inductive Frame where
  | message (id : Nat) (fromU toU content : String) (timestamp : Nat) (status : String)
  | typing (fromU : String) (isTyping : Bool)
  | status (username : String) (online : Bool)
  | ack (messageId : Nat) (status : String)
deriving DecidableEq, Repr

/-- A client's outbound `Send` channel: buffered frames plus closed flag. -/
structure Queue where
  frames : List Frame
  closed : Bool
deriving DecidableEq, Repr

/-- `server.Client`: the connection object; `connId` stands for the Go
pointer identity of the `*Client` (fresh per accepted connection). -/
structure Client where
  username : String
  connId : Nat
deriving DecidableEq, Repr

/-- `models.User`: presence record; `currentConn` is the `CurrentConn`
pointer, embedded as the connection's id. -/
structure UserR where
  username : String
  online : Bool
  currentConn : Option Nat
  lastSeen : Nat
deriving DecidableEq, Repr

/-- `models.InboundMessage` (the `tempId` field is unused by the hub). -/
structure InboundMessage where
  toU : String
  content : String
deriving DecidableEq, Repr

/-- `models.Conversation` (listing entry; `unreadCount` is never set). -/
structure Conversation where
  peerUsername : String
  lastMessagePreview : String
  lastMessageTime : Nat
  peerOnline : Bool
deriving DecidableEq, Repr

/-- `server.Hub` state: `Clients`, `Users`, `Conversations` maps, plus the
queue store (one queue per live connection id), the absorbing panic flag,
and the uuid counter. -/
structure Hub where
  clients : List (String × Client)
  users : List (String × UserR)
  conversations : List (String × List Message)
  queues : List (Nat × Queue)
  panicked : Bool
  nextId : Nat
deriving DecidableEq, Repr

/-- `models.ConvKey`: `sort.Strings([a,b]); strings.Join(users, "|")`. -/
def ConvKey (a b : String) : String :=
  if a ≤ b then a ++ "|" ++ b else b ++ "|" ++ a

/-! ### Hub operations (from the `server` package hub file) -/

/-- `h.sendToClient(client, msgType, payload)`: non-blocking select send.
A full open queue triggers `close(client.Send); delete(h.Clients,
client.Username)`; a send on a closed channel (or `close` on a nil one)
is a Go runtime panic. -/
def sendToClient (h : Hub) (c : Client) (f : Frame) : Hub :=
  if h.panicked then h else
  match alookup c.connId h.queues with
  | none => { h with panicked := true }
  | some q =>
    if q.closed then { h with panicked := true }
    else if q.frames.length < queueCap then
      { h with queues := aupsert c.connId ⟨q.frames ++ [f], false⟩ h.queues }
    else
      { h with queues := aupsert c.connId ⟨q.frames, true⟩ h.queues,
               clients := aerase c.username h.clients }

/-- `close(oldClient.Send)` in `registerClient`: closing an already
closed (or nil) channel panics. -/
def closeQueue (h : Hub) (cid : Nat) : Hub :=
  if h.panicked then h else
  match alookup cid h.queues with
  | none => { h with panicked := true }
  | some q =>
    if q.closed then { h with panicked := true }
    else { h with queues := aupsert cid ⟨q.frames, true⟩ h.queues }

/-- The guarded close in `unregisterClient`:
`select { case <-client.Send: default: close(client.Send) }`.
A buffered frame makes the receive ready (one frame is consumed and the
channel stays open); an empty closed channel also makes the receive
ready (no-op); only an empty open channel reaches the default and is
closed. -/
def safeClose (h : Hub) (cid : Nat) : Hub :=
  if h.panicked then h else
  match alookup cid h.queues with
  | none => { h with panicked := true }
  | some q =>
    match q.frames with
    | _ :: rest => { h with queues := aupsert cid ⟨rest, q.closed⟩ h.queues }
    | [] =>
      if q.closed then h
      else { h with queues := aupsert cid ⟨[], true⟩ h.queues }

/-- The loop body of `broadcastStatus`, recursing over a snapshot of the
`h.Clients` entries (a send can only evict the entry it targets, so the
snapshot traversal matches Go's delete-during-range semantics). -/
def sendStatusAll (h : Hub) (entries : List (String × Client))
    (username : String) (online : Bool) : Hub :=
  match entries with
  | [] => h
  | (un, c) :: rest =>
    sendStatusAll
      (if un = username then h else sendToClient h c (Frame.status username online))
      rest username online

/-- `h.broadcastStatus(username, online)`: status envelope to every
registered client except the user themselves. -/
def broadcastStatus (h : Hub) (username : String) (online : Bool) : Hub :=
  sendStatusAll h h.clients username online

/-- The replay loop at the end of `registerClient`: sends the online
status of every other online user to the newly connected client. -/
def sendOnlineList (h : Hub) (entries : List (String × UserR))
    (client : Client) (username : String) : Hub :=
  match entries with
  | [] => h
  | (un, u) :: rest =>
    sendOnlineList
      (if un ≠ username ∧ u.online then sendToClient h client (Frame.status un true) else h)
      rest client username

/-- The eviction prologue of `registerClient`: when the user record has
a live `CurrentConn`, close the old registered connection's queue and
delete it from the client table. -/
def evictStage (h : Hub) (username : String) : Hub :=
  match alookup username h.users with
  | some u =>
    if u.currentConn.isSome then
      match alookup username h.clients with
      | some oldClient =>
        { closeQueue h oldClient.connId with
            clients := aerase username (closeQueue h oldClient.connId).clients }
      | none => h
    else h
  | none => h

/-- The user record written by `registerClient`: online, pointing at the
new connection, lastSeen updated (`Username` kept from an existing
record, or freshly set). -/
def updatedUser (h : Hub) (client : Client) (now : Nat) : UserR :=
  match alookup client.username h.users with
  | some u => ⟨u.username, true, some client.connId, now⟩
  | none => ⟨client.username, true, some client.connId, now⟩

/-- `h.registerClient(client) bool`: evicts an existing connection for
the same username (when `Users[username].CurrentConn != nil`), installs
the new one, creates/updates the user record, broadcasts online status,
replays the online set to the new client, and returns true. -/
def registerClient (h : Hub) (client : Client) (now : Nat) : Hub × Bool :=
  let h1 := evictStage h client.username
  let h2 := { h1 with clients := aupsert client.username client h1.clients }
  let h3 := { h2 with users := aupsert client.username (updatedUser h2 client now) h2.users }
  let h4 := broadcastStatus h3 client.username true
  (sendOnlineList h4 h4.users client client.username, true)

/-- The user-record update of `unregisterClient`: offline, connection
pointer cleared, lastSeen updated (no-op when the user is unknown). -/
def offlineUserStage (h : Hub) (username : String) (now : Nat) : Hub :=
  match alookup username h.users with
  | some u => { h with users := aupsert username ⟨u.username, false, none, now⟩ h.users }
  | none => h

/-- `h.unregisterClient(client)`: no-op unless `client` is still the
registered connection for its username; otherwise removes it, marks the
user offline with updated lastSeen, performs the guarded close of its
queue, and broadcasts offline status. -/
def unregisterClient (h : Hub) (client : Client) (now : Nat) : Hub :=
  match alookup client.username h.clients with
  | some existing =>
    if existing = client then
      broadcastStatus
        (safeClose
          (offlineUserStage
            { h with clients := aerase client.username h.clients } client.username now)
          client.connId)
        client.username false
    else h
  | none => h

/-- Sets `message.Status = "delivered"` on the just-appended message: the
Go code mutates the `*Message` it appended, which sequentially is the
last element of the conversation slice. -/
def setLastDelivered : List Message → List Message
  | [] => []
  | [m] => [{ m with status := "delivered" }]
  | m :: rest => m :: setLastDelivered rest

def markLastDelivered (h : Hub) (key : String) : Hub :=
  match alookup key h.conversations with
  | some ms => { h with conversations := aupsert key (setLastDelivered ms) h.conversations }
  | none => h

/-- The `models.Message` created by `handleInboundMessageWithSender`:
id from the uuid counter, timestamp now, status sent. -/
def sentMessage (h : Hub) (fromU : String) (msg : InboundMessage) (now : Nat) : Message :=
  ⟨h.nextId, fromU, msg.toU, msg.content, now, "sent"⟩

/-- The confirmation envelope sent back to the sender (status sent). -/
def senderFrame (h : Hub) (fromU : String) (msg : InboundMessage) (now : Nat) : Frame :=
  Frame.message h.nextId fromU msg.toU msg.content now "sent"

/-- The envelope delivered to the recipient (status delivered). -/
def recipientFrame (h : Hub) (fromU : String) (msg : InboundMessage) (now : Nat) : Frame :=
  Frame.message h.nextId fromU msg.toU msg.content now "delivered"

/-- The `ack{status: delivered}` envelope sent back to the sender. -/
def ackFrame (h : Hub) : Frame := Frame.ack h.nextId "delivered"

/-- Appending the freshly created message (status `"sent"`, id from the
uuid counter, timestamp now) to the canonical conversation log. -/
def appendMessageStage (h : Hub) (fromU : String) (msg : InboundMessage) (now : Nat) : Hub :=
  { h with
      conversations := aupsert (ConvKey fromU msg.toU)
        (((alookup (ConvKey fromU msg.toU) h.conversations).getD []) ++
          [sentMessage h fromU msg now]) h.conversations,
      nextId := h.nextId + 1 }

/-- `h.handleInboundMessageWithSender(from, msg)`: creates the message
(status sent), appends it to the canonical conversation log, sends the
confirmation envelope to the sender if registered; if the recipient is
registered, sends the delivered envelope to the recipient, flips the
stored status to delivered, and sends the ack to the sender if
registered. -/
def handleInboundMessageWithSender (h : Hub) (fromU : String)
    (msg : InboundMessage) (now : Nat) : Hub :=
  let h1 := appendMessageStage h fromU msg now
  match alookup fromU h1.clients, alookup msg.toU h1.clients with
  | some sc, some rc =>
    sendToClient
      (markLastDelivered
        (sendToClient (sendToClient h1 sc (senderFrame h fromU msg now))
          rc (recipientFrame h fromU msg now))
        (ConvKey fromU msg.toU))
      sc (ackFrame h)
  | some sc, none => sendToClient h1 sc (senderFrame h fromU msg now)
  | none, some rc =>
    markLastDelivered (sendToClient h1 rc (recipientFrame h fromU msg now))
      (ConvKey fromU msg.toU)
  | none, none => h1

/-- `h.handleTypingEvent(event)`: forwards the typing envelope to the
recipient's queue only when a connection is registered for the
recipient. -/
def handleTypingEvent (h : Hub) (fromU toU : String) (isTyping : Bool) : Hub :=
  match alookup toU h.clients with
  | some rc => sendToClient h rc (Frame.typing fromU isTyping)
  | none => h

/-- `h.GetConversationMessages(u1, u2)`: reads the canonical key; a
missing Go map key yields the empty slice. -/
def GetConversationMessages (h : Hub) (u1 u2 : String) : List Message :=
  (alookup (ConvKey u1 u2) h.conversations).getD []

/-- The peer reported for a conversation whose last message is
`lastMsg`: the other end of that message relative to `username`. -/
def peerOf (username : String) (lastMsg : Message) : String :=
  if lastMsg.fromU = username then lastMsg.toU else lastMsg.fromU

/-- The `PeerOnline` field: current presence of the peer. -/
def peerOnlineOf (h : Hub) (peer : String) : Bool :=
  match alookup peer h.users with
  | some u => u.online
  | none => false

/-- The collection loop of `h.GetConversations(username)`: one entry per
conversation log whose last message touches `username`, skipping peers
already seen, with the peer's current presence attached. -/
def convEntries (h : Hub) (username : String) :
    List (String × List Message) → List String → List Conversation
  | [], _ => []
  | (_, msgs) :: rest, seen =>
    match msgs.getLast? with
    | none => convEntries h username rest seen
    | some lastMsg =>
      if lastMsg.fromU = username ∨ lastMsg.toU = username then
        if peerOf username lastMsg ∈ seen then convEntries h username rest seen
        else
          ⟨peerOf username lastMsg, lastMsg.content, lastMsg.timestamp,
            peerOnlineOf h (peerOf username lastMsg)⟩ ::
            convEntries h username rest (peerOf username lastMsg :: seen)
      else convEntries h username rest seen

/-- The comparator of the final `sort.Slice`: entry `a` may precede `b`
iff `b`'s last-message time does not exceed `a`'s (descending order). -/
def convLe (a b : Conversation) : Prop := b.lastMessageTime ≤ a.lastMessageTime

instance : DecidableRel convLe := fun a b => Nat.decLe b.lastMessageTime a.lastMessageTime

instance : IsTotal Conversation convLe :=
  ⟨fun a b => Nat.le_total b.lastMessageTime a.lastMessageTime⟩

instance : IsTrans Conversation convLe :=
  ⟨fun _ _ _ hab hbc => le_trans hbc hab⟩

/-- `h.GetConversations(username)`: collect one entry per peer, then sort
by last-message time descending (`sort.Slice` with `After`; the model
uses insertion sort, one of the sorted permutations the unstable Go sort
may produce). -/
def GetConversations (h : Hub) (username : String) : List Conversation :=
  List.insertionSort convLe (convEntries h username h.conversations [])

/-! ### Search (from `SearchUsers` and `contains` in the hub file) -/

def listPrefixOf {α : Type} [DecidableEq α] : List α → List α → Bool
  | [], _ => true
  | _ :: _, [] => false
  | a :: as, b :: bs => a = b && listPrefixOf as bs

/-- `strings.Contains`: `sub` occurs contiguously inside `l`. -/
def listInfix {α : Type} [DecidableEq α] (sub : List α) : List α → Bool
  | [] => listPrefixOf sub []
  | b :: t => listPrefixOf sub (b :: t) || listInfix sub t

/-- The UTF-8 byte size of one code point (1 below U+0080, 2 below
U+0800, 3 below U+10000, 4 above). -/
def goCharSize (c : Char) : Nat :=
  if c.toNat < 0x80 then 1
  else if c.toNat < 0x800 then 2
  else if c.toNat < 0x10000 then 3
  else 4

/-- Go's `len(s)` on a string: its UTF-8 byte length (Go strings are
byte slices, so `len` counts bytes, not code points). -/
def goLen (s : String) : Nat := (s.data.map goCharSize).sum

/-- Go's per-rune `unicode.ToLower` (the simple Unicode lowercase
mapping), embedded exactly on ASCII and on the only two code points
whose lowercase lands in ASCII: U+0130 LATIN CAPITAL LETTER I WITH DOT
ABOVE ↦ 'i' and U+212A KELVIN SIGN ↦ 'k'.  All other non-ASCII code
points are left unchanged; Go lowers some of them too, but always to
another non-ASCII code point, so for deciding whether a character
lowers to a given ASCII character this embedding agrees with Go
everywhere — which is all the ASCII-fragment theorem below relies on,
while the counterexample exercises U+0130 where the embedding is
exact. -/
def goLowerChar (c : Char) : Char :=
  if c.toNat = 0x130 then 'i'
  else if c.toNat = 0x212A then 'k'
  else Char.toLower c

/-- `strings.ToLower`, per rune.  (Rune-level substring search below is
equivalent to Go's byte-level `strings.Contains`: UTF-8 is
self-synchronizing, so a byte occurrence of an encoded pattern in an
encoded string is always rune-aligned.) -/
def toLowerStr (s : String) : List Char := s.data.map goLowerChar

/-- The hub's `contains(s, substr)` helper: empty pattern matches, a
pattern with more bytes than the subject is rejected before lowering
(`len` compares UTF-8 byte lengths), otherwise lowercase both and test
substring containment. -/
def contains (s substr : String) : Bool :=
  if goLen substr = 0 then true
  else if goLen s < goLen substr then false
  else listInfix (toLowerStr substr) (toLowerStr s)

/-- The collection loop of `h.SearchUsers(query, excludeUsername)`:
skip the caller, keep users whose name matches (empty query matches
all), projecting to `{Username, Online}`. -/
def searchAux (query exclude : String) : List (String × UserR) → List (String × Bool)
  | [] => []
  | (_, u) :: rest =>
    if u.username = exclude then searchAux query exclude rest
    else if goLen query = 0 ∨ contains u.username query then
      (u.username, u.online) :: searchAux query exclude rest
    else searchAux query exclude rest

/-- `h.SearchUsers(query, excludeUsername)`. -/
def SearchUsers (h : Hub) (query exclude : String) : List (String × Bool) :=
  searchAux query exclude h.users

/-- Modelled from the spec: "case-insensitive substring match over all
known identities (online or not) ... empty fragment matches all" —
the query matches a name iff the lowercased query occurs contiguously
in the lowercased name (the empty query trivially occurs). -/
def ciMatches (query name : String) : Bool :=
  listInfix (toLowerStr query) (toLowerStr name)

/-- Every character of the string is ASCII (below U+0080).  Registered
usernames always satisfy this (the HTTP layer validates handles to
letters, digits and underscore), but the search query is raw request
input and need not. -/
def isASCIIString (s : String) : Bool := s.data.all (fun c => c.toNat < 0x80)

/-! ### Basic facts about `sendToClient` -/

theorem sendToClient_users (h : Hub) (c : Client) (f : Frame) :
    (sendToClient h c f).users = h.users := by
  rw [sendToClient]
  repeat' first | rfl | split

theorem sendToClient_conversations (h : Hub) (c : Client) (f : Frame) :
    (sendToClient h c f).conversations = h.conversations := by
  rw [sendToClient]
  repeat' first | rfl | split

theorem sendToClient_nextId (h : Hub) (c : Client) (f : Frame) :
    (sendToClient h c f).nextId = h.nextId := by
  rw [sendToClient]
  repeat' first | rfl | split

theorem sendToClient_queue_other (h : Hub) (c : Client) (f : Frame) (cid : Nat)
    (hcid : cid ≠ c.connId) :
    alookup cid (sendToClient h c f).queues = alookup cid h.queues := by
  rw [sendToClient]
  repeat' first | rfl | exact alookup_aupsert_ne _ _ _ _ hcid | split

theorem sendToClient_clients_other (h : Hub) (c : Client) (f : Frame) (un : String)
    (hun : un ≠ c.username) :
    alookup un (sendToClient h c f).clients = alookup un h.clients := by
  rw [sendToClient]
  repeat' first | rfl | exact alookup_aerase_ne _ _ _ hun | split

theorem sendToClient_clients_none (h : Hub) (c : Client) (f : Frame) (un : String)
    (hun : alookup un h.clients = none) :
    alookup un (sendToClient h c f).clients = none := by
  rw [sendToClient]
  repeat' first | exact hun | exact alookup_aerase_none _ _ _ hun | split

theorem sendToClient_keysNodup (h : Hub) (c : Client) (f : Frame)
    (hn : keysNodup h.clients) : keysNodup (sendToClient h c f).clients := by
  rw [sendToClient]
  repeat' first | exact hn | exact keysNodup_aerase _ _ hn | split

/-- On a live queue with room, a send just appends the frame. -/
theorem sendToClient_success (h : Hub) (c : Client) (f : Frame) (q : Queue)
    (hp : h.panicked = false) (hq : alookup c.connId h.queues = some q)
    (hcl : q.closed = false) (hlen : q.frames.length < queueCap) :
    sendToClient h c f =
      { h with queues := aupsert c.connId ⟨q.frames ++ [f], false⟩ h.queues } := by
  rw [sendToClient, hp, hq]
  simp [hcl, hlen]

/-- On a live but full queue, a send closes the queue (frames retained)
and evicts the connection from the client table. -/
theorem sendToClient_overflow (h : Hub) (c : Client) (f : Frame) (q : Queue)
    (hp : h.panicked = false) (hq : alookup c.connId h.queues = some q)
    (hcl : q.closed = false) (hfull : ¬ q.frames.length < queueCap) :
    sendToClient h c f =
      { h with queues := aupsert c.connId ⟨q.frames, true⟩ h.queues,
               clients := aerase c.username h.clients } := by
  rw [sendToClient, hp, hq]
  simp [hcl, hfull]

/-- Sends never reopen a closed queue. -/
theorem sendToClient_closed_stable (h : Hub) (c : Client) (f : Frame) (cid : Nat) (q : Queue)
    (hq : alookup cid h.queues = some q) (hcl : q.closed = true) :
    ∃ q', alookup cid (sendToClient h c f).queues = some q' ∧ q'.closed = true := by
  by_cases hcid : cid = c.connId
  · subst hcid
    rw [sendToClient]
    split
    · exact ⟨q, hq, hcl⟩
    · rw [hq]
      simp [hcl]
      exact ⟨q, hq, hcl⟩
  · rw [sendToClient_queue_other h c f cid hcid]
    exact ⟨q, hq, hcl⟩

/-! ### Basic facts about `closeQueue`, `safeClose`, `markLastDelivered` -/

theorem closeQueue_users (h : Hub) (cid : Nat) : (closeQueue h cid).users = h.users := by
  rw [closeQueue]
  repeat' first | rfl | split

theorem closeQueue_clients (h : Hub) (cid : Nat) : (closeQueue h cid).clients = h.clients := by
  rw [closeQueue]
  repeat' first | rfl | split

theorem closeQueue_conversations (h : Hub) (cid : Nat) :
    (closeQueue h cid).conversations = h.conversations := by
  rw [closeQueue]
  repeat' first | rfl | split

theorem closeQueue_queue_other (h : Hub) (cid cid' : Nat) (hne : cid' ≠ cid) :
    alookup cid' (closeQueue h cid).queues = alookup cid' h.queues := by
  rw [closeQueue]
  repeat' first | rfl | exact alookup_aupsert_ne _ _ _ _ hne | split

/-- Closing a live queue marks it closed (frames retained) and nothing
else changes. -/
theorem closeQueue_success (h : Hub) (cid : Nat) (q : Queue)
    (hp : h.panicked = false) (hq : alookup cid h.queues = some q) (hcl : q.closed = false) :
    closeQueue h cid = { h with queues := aupsert cid ⟨q.frames, true⟩ h.queues } := by
  rw [closeQueue, hp, hq]
  simp [hcl]

theorem safeClose_users (h : Hub) (cid : Nat) : (safeClose h cid).users = h.users := by
  rw [safeClose]
  repeat' first | rfl | split

theorem safeClose_clients (h : Hub) (cid : Nat) : (safeClose h cid).clients = h.clients := by
  rw [safeClose]
  repeat' first | rfl | split

theorem safeClose_conversations (h : Hub) (cid : Nat) :
    (safeClose h cid).conversations = h.conversations := by
  rw [safeClose]
  repeat' first | rfl | split

theorem safeClose_panicked (h : Hub) (cid : Nat) (q : Queue)
    (hp : h.panicked = false) (hq : alookup cid h.queues = some q) :
    (safeClose h cid).panicked = false := by
  obtain ⟨fs, cl⟩ := q
  rw [safeClose, hp, hq]
  cases fs with
  | cons f rest => rfl
  | nil =>
    cases cl with
    | true => exact hp
    | false => rfl

theorem safeClose_queue_other (h : Hub) (cid cid' : Nat) (hne : cid' ≠ cid) :
    alookup cid' (safeClose h cid).queues = alookup cid' h.queues := by
  rw [safeClose]
  repeat' first | rfl | exact alookup_aupsert_ne _ _ _ _ hne | split

/-- The guarded close on an empty open queue closes it. -/
theorem safeClose_empty (h : Hub) (cid : Nat)
    (hp : h.panicked = false) (hq : alookup cid h.queues = some ⟨[], false⟩) :
    safeClose h cid = { h with queues := aupsert cid ⟨[], true⟩ h.queues } := by
  rw [safeClose, hp, hq]
  rfl

/-- The guarded close on a queue with pending frames discards the head
frame and leaves the queue open. -/
theorem safeClose_pending (h : Hub) (cid : Nat) (f : Frame) (rest : List Frame) (cl : Bool)
    (hp : h.panicked = false) (hq : alookup cid h.queues = some ⟨f :: rest, cl⟩) :
    safeClose h cid = { h with queues := aupsert cid ⟨rest, cl⟩ h.queues } := by
  rw [safeClose, hp, hq]
  rfl

theorem offlineUserStage_clients (h : Hub) (un : String) (now : Nat) :
    (offlineUserStage h un now).clients = h.clients := by
  rw [offlineUserStage]
  repeat' first | rfl | split

theorem offlineUserStage_queues (h : Hub) (un : String) (now : Nat) :
    (offlineUserStage h un now).queues = h.queues := by
  rw [offlineUserStage]
  repeat' first | rfl | split

theorem offlineUserStage_panicked (h : Hub) (un : String) (now : Nat) :
    (offlineUserStage h un now).panicked = h.panicked := by
  rw [offlineUserStage]
  repeat' first | rfl | split

theorem markLastDelivered_clients (h : Hub) (key : String) :
    (markLastDelivered h key).clients = h.clients := by
  rw [markLastDelivered]
  repeat' first | rfl | split

theorem markLastDelivered_users (h : Hub) (key : String) :
    (markLastDelivered h key).users = h.users := by
  rw [markLastDelivered]
  repeat' first | rfl | split

theorem markLastDelivered_queues (h : Hub) (key : String) :
    (markLastDelivered h key).queues = h.queues := by
  rw [markLastDelivered]
  repeat' first | rfl | split

theorem markLastDelivered_panicked (h : Hub) (key : String) :
    (markLastDelivered h key).panicked = h.panicked := by
  rw [markLastDelivered]
  repeat' first | rfl | split

/-! ### Facts about the broadcast fold `sendStatusAll` -/

theorem sendStatusAll_users (h : Hub) (L : List (String × Client)) (un : String) (b : Bool) :
    (sendStatusAll h L un b).users = h.users := by
  induction L generalizing h with
  | nil => rfl
  | cons p rest ih =>
    obtain ⟨un0, c0⟩ := p
    rw [sendStatusAll]
    by_cases h0 : un0 = un
    · rw [if_pos h0, ih]
    · rw [if_neg h0, ih, sendToClient_users]

theorem sendStatusAll_conversations (h : Hub) (L : List (String × Client)) (un : String) (b : Bool) :
    (sendStatusAll h L un b).conversations = h.conversations := by
  induction L generalizing h with
  | nil => rfl
  | cons p rest ih =>
    obtain ⟨un0, c0⟩ := p
    rw [sendStatusAll]
    by_cases h0 : un0 = un
    · rw [if_pos h0, ih]
    · rw [if_neg h0, ih, sendToClient_conversations]

theorem sendStatusAll_nextId (h : Hub) (L : List (String × Client)) (un : String) (b : Bool) :
    (sendStatusAll h L un b).nextId = h.nextId := by
  induction L generalizing h with
  | nil => rfl
  | cons p rest ih =>
    obtain ⟨un0, c0⟩ := p
    rw [sendStatusAll]
    by_cases h0 : un0 = un
    · rw [if_pos h0, ih]
    · rw [if_neg h0, ih, sendToClient_nextId]

theorem sendStatusAll_keysNodup (h : Hub) (L : List (String × Client)) (un : String) (b : Bool)
    (hn : keysNodup h.clients) : keysNodup (sendStatusAll h L un b).clients := by
  induction L generalizing h with
  | nil => exact hn
  | cons p rest ih =>
    obtain ⟨un0, c0⟩ := p
    rw [sendStatusAll]
    by_cases h0 : un0 = un
    · rw [if_pos h0]
      exact ih h hn
    · rw [if_neg h0]
      exact ih _ (sendToClient_keysNodup h c0 _ hn)

/-- Broadcasting preserves the client-table entry of any username that
no sent-to connection carries. -/
theorem sendStatusAll_clients_pres (h : Hub) (L : List (String × Client)) (un : String)
    (b : Bool) (target : String)
    (hL : ∀ p ∈ L, p.1 ≠ un → p.2.username ≠ target) :
    alookup target (sendStatusAll h L un b).clients = alookup target h.clients := by
  induction L generalizing h with
  | nil => rfl
  | cons p rest ih =>
    obtain ⟨un0, c0⟩ := p
    rw [sendStatusAll]
    by_cases h0 : un0 = un
    · rw [if_pos h0]
      exact ih h (fun p hp => hL p (List.mem_cons_of_mem _ hp))
    · rw [if_neg h0]
      rw [ih _ (fun p hp => hL p (List.mem_cons_of_mem _ hp))]
      exact sendToClient_clients_other h c0 _ target
        (fun he => hL (un0, c0) (List.mem_cons_self _ _) h0 (he ▸ rfl))

/-- Broadcasting does not touch the queue of a connection id that no
sent-to connection carries. -/
theorem sendStatusAll_queue_other (h : Hub) (L : List (String × Client)) (un : String)
    (b : Bool) (cid : Nat)
    (hL : ∀ p ∈ L, p.1 ≠ un → p.2.connId ≠ cid) :
    alookup cid (sendStatusAll h L un b).queues = alookup cid h.queues := by
  induction L generalizing h with
  | nil => rfl
  | cons p rest ih =>
    obtain ⟨un0, c0⟩ := p
    rw [sendStatusAll]
    by_cases h0 : un0 = un
    · rw [if_pos h0]
      exact ih h (fun p hp => hL p (List.mem_cons_of_mem _ hp))
    · rw [if_neg h0]
      rw [ih _ (fun p hp => hL p (List.mem_cons_of_mem _ hp))]
      exact sendToClient_queue_other h c0 _ cid
        (fun he => hL (un0, c0) (List.mem_cons_self _ _) h0 (he ▸ rfl))

/-- Under pairwise-distinct connection ids and live queues, a broadcast
never panics, and each non-skipped connection's queue either receives
the status frame (when it has room) or is closed with its frames
retained (when it is full). -/
theorem sendStatusAll_delivers (L : List (String × Client)) (h : Hub) (un : String) (b : Bool)
    (hp : h.panicked = false)
    (hdist : L.Pairwise (fun p p' => p.2.connId ≠ p'.2.connId))
    (hq : ∀ p ∈ L, p.1 ≠ un → ∃ q, alookup p.2.connId h.queues = some q ∧ q.closed = false) :
    (sendStatusAll h L un b).panicked = false ∧
    ∀ p ∈ L, p.1 ≠ un → ∀ q, alookup p.2.connId h.queues = some q →
      (q.frames.length < queueCap →
        alookup p.2.connId (sendStatusAll h L un b).queues
          = some ⟨q.frames ++ [Frame.status un b], false⟩) ∧
      (¬ q.frames.length < queueCap →
        alookup p.2.connId (sendStatusAll h L un b).queues = some ⟨q.frames, true⟩) := by
  induction L generalizing h with
  | nil => exact ⟨hp, by simp⟩
  | cons p0 rest ih =>
    obtain ⟨un0, c0⟩ := p0
    rw [List.pairwise_cons] at hdist
    rw [sendStatusAll]
    by_cases h0 : un0 = un
    · rw [if_pos h0]
      obtain ⟨ihp, ihq⟩ := ih h hp hdist.2
        (fun p hmem hpun => hq p (List.mem_cons_of_mem _ hmem) hpun)
      refine ⟨ihp, ?_⟩
      intro p hmem hpun q hqq
      rcases List.mem_cons.mp hmem with heq | hmem'
      · subst heq
        exact absurd h0 hpun
      · exact ihq p hmem' hpun q hqq
    · rw [if_neg h0]
      obtain ⟨q0, hq0, hcl0⟩ := hq (un0, c0) (List.mem_cons_self _ _) h0
      have hrest_ne : ∀ p ∈ rest, p.1 ≠ un → p.2.connId ≠ c0.connId :=
        fun p hmem _ => Ne.symm (hdist.1 p hmem)
      by_cases hroom : q0.frames.length < queueCap
      · have hsend := sendToClient_success h c0 (Frame.status un b) q0 hp hq0 hcl0 hroom
        have hp' : (sendToClient h c0 (Frame.status un b)).panicked = false := by
          rw [hsend]; exact hp
        have hq' : ∀ p ∈ rest, p.1 ≠ un →
            ∃ q, alookup p.2.connId (sendToClient h c0 (Frame.status un b)).queues = some q ∧
              q.closed = false := by
          intro p hmem hpun
          obtain ⟨q, hqq, hclq⟩ := hq p (List.mem_cons_of_mem _ hmem) hpun
          refine ⟨q, ?_, hclq⟩
          rw [sendToClient_queue_other h c0 _ p.2.connId (Ne.symm (hdist.1 p hmem))]
          exact hqq
        obtain ⟨ihp, ihq⟩ := ih _ hp' hdist.2 hq'
        refine ⟨ihp, ?_⟩
        intro p hmem hpun q hqq
        rcases List.mem_cons.mp hmem with heq | hmem'
        · subst heq
          have hqeq : q = q0 := by
            rw [hq0] at hqq
            exact (Option.some_inj.mp hqq).symm
          subst hqeq
          have hfinal : alookup c0.connId (sendStatusAll (sendToClient h c0 (Frame.status un b)) rest un b).queues
              = alookup c0.connId (sendToClient h c0 (Frame.status un b)).queues :=
            sendStatusAll_queue_other _ rest un b c0.connId hrest_ne
          constructor
          · intro _
            rw [hfinal, hsend]
            exact alookup_aupsert_self _ _ _
          · intro hcontr
            exact absurd hroom hcontr
        · obtain ⟨q', hqq', hclq'⟩ := hq' p hmem' hpun
          have hsame : alookup p.2.connId (sendToClient h c0 (Frame.status un b)).queues
              = alookup p.2.connId h.queues :=
            sendToClient_queue_other h c0 _ p.2.connId (Ne.symm (hdist.1 p hmem'))
          exact ihq p hmem' hpun q (by rw [hsame]; exact hqq)
      · have hsend := sendToClient_overflow h c0 (Frame.status un b) q0 hp hq0 hcl0 hroom
        have hp' : (sendToClient h c0 (Frame.status un b)).panicked = false := by
          rw [hsend]; exact hp
        have hq' : ∀ p ∈ rest, p.1 ≠ un →
            ∃ q, alookup p.2.connId (sendToClient h c0 (Frame.status un b)).queues = some q ∧
              q.closed = false := by
          intro p hmem hpun
          obtain ⟨q, hqq, hclq⟩ := hq p (List.mem_cons_of_mem _ hmem) hpun
          refine ⟨q, ?_, hclq⟩
          rw [sendToClient_queue_other h c0 _ p.2.connId (Ne.symm (hdist.1 p hmem))]
          exact hqq
        obtain ⟨ihp, ihq⟩ := ih _ hp' hdist.2 hq'
        refine ⟨ihp, ?_⟩
        intro p hmem hpun q hqq
        rcases List.mem_cons.mp hmem with heq | hmem'
        · subst heq
          have hqeq : q = q0 := by
            rw [hq0] at hqq
            exact (Option.some_inj.mp hqq).symm
          subst hqeq
          have hfinal : alookup c0.connId (sendStatusAll (sendToClient h c0 (Frame.status un b)) rest un b).queues
              = alookup c0.connId (sendToClient h c0 (Frame.status un b)).queues :=
            sendStatusAll_queue_other _ rest un b c0.connId hrest_ne
          constructor
          · intro hcontr
            exact absurd hcontr hroom
          · intro _
            rw [hfinal, hsend]
            exact alookup_aupsert_self _ _ _
        · obtain ⟨q', hqq', hclq'⟩ := hq' p hmem' hpun
          have hsame : alookup p.2.connId (sendToClient h c0 (Frame.status un b)).queues
              = alookup p.2.connId h.queues :=
            sendToClient_queue_other h c0 _ p.2.connId (Ne.symm (hdist.1 p hmem'))
          exact ihq p hmem' hpun q (by rw [hsame]; exact hqq)

theorem sendStatusAll_closed_stable (h : Hub) (L : List (String × Client)) (un : String)
    (b : Bool) (cid : Nat) (q : Queue)
    (hq : alookup cid h.queues = some q) (hcl : q.closed = true) :
    ∃ q', alookup cid (sendStatusAll h L un b).queues = some q' ∧ q'.closed = true := by
  induction L generalizing h q with
  | nil => exact ⟨q, hq, hcl⟩
  | cons p rest ih =>
    obtain ⟨un0, c0⟩ := p
    rw [sendStatusAll]
    by_cases h0 : un0 = un
    · rw [if_pos h0]
      exact ih h q hq hcl
    · rw [if_neg h0]
      obtain ⟨q', hq', hcl'⟩ := sendToClient_closed_stable h c0 _ cid q hq hcl
      exact ih _ q' hq' hcl'

/-! ### Facts about the replay fold `sendOnlineList` -/

/-- The status frames the replay loop pushes onto a fresh client's
queue: one per other online user, in table order. -/
def onlineStatusFrames (username : String) (L : List (String × UserR)) : List Frame :=
  L.filterMap (fun p => if p.1 ≠ username ∧ p.2.online then some (Frame.status p.1 true) else none)

theorem onlineStatusFrames_aupsert (username : String) (u : UserR)
    (L : List (String × UserR)) :
    onlineStatusFrames username (aupsert username u L) = onlineStatusFrames username L := by
  induction L with
  | nil => simp [aupsert, onlineStatusFrames]
  | cons p rest ih =>
    obtain ⟨k0, v0⟩ := p
    by_cases hk : username = k0
    · subst hk
      have he : aupsert username u ((username, v0) :: rest) = (username, u) :: rest := by
        simp [aupsert]
      rw [he]
      simp [onlineStatusFrames]
    · rw [aupsert, if_neg hk]
      simp only [onlineStatusFrames, List.filterMap_cons] at ih ⊢
      split <;> simp [ih]

/-- When the target queue has room for every frame, the replay loop
appends exactly the online-status frames and changes nothing else. -/
theorem sendOnlineList_success (L : List (String × UserR)) (h : Hub) (client : Client)
    (username : String) (fs : List Frame)
    (hp : h.panicked = false)
    (hq : alookup client.connId h.queues = some ⟨fs, false⟩)
    (hcount : fs.length + (onlineStatusFrames username L).length ≤ queueCap) :
    (sendOnlineList h L client username).panicked = false ∧
    (sendOnlineList h L client username).clients = h.clients ∧
    (sendOnlineList h L client username).users = h.users ∧
    (sendOnlineList h L client username).conversations = h.conversations ∧
    alookup client.connId (sendOnlineList h L client username).queues
      = some ⟨fs ++ onlineStatusFrames username L, false⟩ ∧
    ∀ cid, cid ≠ client.connId →
      alookup cid (sendOnlineList h L client username).queues = alookup cid h.queues := by
  induction L generalizing h fs with
  | nil =>
    refine ⟨hp, rfl, rfl, rfl, ?_, fun _ _ => rfl⟩
    simpa [onlineStatusFrames] using hq
  | cons p0 rest ih =>
    obtain ⟨un0, u0⟩ := p0
    rw [sendOnlineList]
    by_cases hcond : un0 ≠ username ∧ u0.online
    · rw [if_pos hcond]
      have hframes : onlineStatusFrames username ((un0, u0) :: rest)
          = Frame.status un0 true :: onlineStatusFrames username rest := by
        simp [onlineStatusFrames, List.filterMap_cons, hcond]
      rw [hframes] at hcount
      have hroom : fs.length < queueCap := by
        simp only [List.length_cons] at hcount
        omega
      have hsend := sendToClient_success h client (Frame.status un0 true) ⟨fs, false⟩ hp hq rfl hroom
      have hp' : (sendToClient h client (Frame.status un0 true)).panicked = false := by
        rw [hsend]; exact hp
      have hq' : alookup client.connId (sendToClient h client (Frame.status un0 true)).queues
          = some ⟨fs ++ [Frame.status un0 true], false⟩ := by
        rw [hsend]
        exact alookup_aupsert_self _ _ _
      have hcount' : (fs ++ [Frame.status un0 true]).length
          + (onlineStatusFrames username rest).length ≤ queueCap := by
        simp only [List.length_append, List.length_singleton]
        simp only [List.length_cons] at hcount
        omega
      obtain ⟨c1, c2, c3, c4, c5, c6⟩ := ih _ _ hp' hq' hcount'
      refine ⟨c1, ?_, ?_, ?_, ?_, ?_⟩
      · rw [c2, hsend]
      · rw [c3, hsend]
      · rw [c4, hsend]
      · rw [c5, hframes, List.append_assoc]
        rfl
      · intro cid hcid
        rw [c6 cid hcid, hsend]
        exact alookup_aupsert_ne _ _ _ _ hcid
    · rw [if_neg hcond]
      have hframes : onlineStatusFrames username ((un0, u0) :: rest)
          = onlineStatusFrames username rest := by
        simp [onlineStatusFrames, List.filterMap_cons, hcond]
      rw [hframes] at hcount
      obtain ⟨c1, c2, c3, c4, c5, c6⟩ := ih h fs hp hq hcount
      exact ⟨c1, c2, c3, c4, by rw [c5, hframes], c6⟩

/-! ### Canonical conversation key -/

theorem ConvKey_comm (a b : String) : ConvKey a b = ConvKey b a := by
  rw [ConvKey, ConvKey]
  rcases le_total a b with hab | hba
  · rw [if_pos hab]
    by_cases hba' : b ≤ a
    · rw [if_pos hba']
      have : a = b := le_antisymm hab hba'
      subst this
      rfl
    · rw [if_neg hba']
  · rw [if_pos hba]
    by_cases hab' : a ≤ b
    · rw [if_pos hab']
      have : a = b := le_antisymm hab' hba
      subst this
      rfl
    · rw [if_neg hab']

/-! ### Substring matching facts -/

theorem listPrefixOf_le_length {α : Type} [DecidableEq α] (sub l : List α)
    (h : listPrefixOf sub l = true) : sub.length ≤ l.length := by
  induction sub generalizing l with
  | nil => simp
  | cons a as ih =>
    cases l with
    | nil => simp [listPrefixOf] at h
    | cons b bs =>
      rw [listPrefixOf, Bool.and_eq_true] at h
      simpa using ih bs h.2

theorem listInfix_le_length {α : Type} [DecidableEq α] (sub l : List α)
    (h : listInfix sub l = true) : sub.length ≤ l.length := by
  induction l with
  | nil => exact listPrefixOf_le_length sub [] h
  | cons b bs ih =>
    rw [listInfix, Bool.or_eq_true] at h
    rcases h with h | h
    · exact listPrefixOf_le_length sub (b :: bs) h
    · exact le_trans (ih h) (by simp)

theorem listInfix_nil {α : Type} [DecidableEq α] (l : List α) :
    listInfix ([] : List α) l = true := by
  cases l with
  | nil => rfl
  | cons b bs => rw [listInfix, listPrefixOf]; rfl

theorem ciMatches_empty (s : String) : ciMatches "" s = true := by
  rw [ciMatches]
  exact listInfix_nil _

theorem toLowerStr_length (s : String) : (toLowerStr s).length = s.data.length := by
  rw [toLowerStr, List.length_map]

theorem goCharSize_pos (c : Char) : 1 ≤ goCharSize c := by
  rw [goCharSize]
  split_ifs <;> omega

theorem goLen_eq_zero (q : String) (h : goLen q = 0) : q.data = [] := by
  cases hd : q.data with
  | nil => rfl
  | cons c cs =>
    rw [goLen, hd] at h
    simp only [List.map_cons, List.sum_cons] at h
    have := goCharSize_pos c
    omega

/-- Each code point occupies at least one byte, so the byte length
bounds the code-point count from above. -/
theorem length_le_goLen (s : String) : s.data.length ≤ goLen s := by
  rw [goLen]
  induction s.data with
  | nil => simp
  | cons c cs ih =>
    simp only [List.map_cons, List.sum_cons, List.length_cons]
    have := goCharSize_pos c
    omega

theorem goLen_list_of_ascii (l : List Char) (h : ∀ c ∈ l, c.toNat < 0x80) :
    (l.map goCharSize).sum = l.length := by
  induction l with
  | nil => rfl
  | cons c cs ih =>
    simp only [List.map_cons, List.sum_cons, List.length_cons]
    have hc : goCharSize c = 1 := by
      rw [goCharSize, if_pos (h c (List.mem_cons_self _ _))]
    rw [hc, ih (fun c' hc' => h c' (List.mem_cons_of_mem _ hc'))]
    omega

theorem ascii_chars (s : String) (h : isASCIIString s = true) :
    ∀ c ∈ s.data, c.toNat < 0x80 := by
  rw [isASCIIString, List.all_eq_true] at h
  intro c hc
  exact of_decide_eq_true (h c hc)

/-- On an ASCII string Go's byte length coincides with the code-point
count. -/
theorem goLen_of_ascii (s : String) (h : isASCIIString s = true) :
    goLen s = s.data.length := by
  rw [goLen]
  exact goLen_list_of_ascii s.data (ascii_chars s h)

theorem ciMatches_of_goLen_zero (q s : String) (h0 : goLen q = 0) : ciMatches q s = true := by
  rw [ciMatches, toLowerStr, goLen_eq_zero q h0, List.map_nil]
  exact listInfix_nil _

/-- For an ASCII query fragment the hub's `contains` test (with its
empty-pattern and byte-length early exits), together with the
empty-query disjunct of `SearchUsers`, agrees with the spec's
case-insensitive substring predicate: an ASCII query has one byte per
character, so the byte-length early exit can only fire when the
lowercased query is genuinely longer than the lowercased name.  (For
non-ASCII fragments this fails — see the counterexample below.) -/
theorem contains_iff_ascii (s q : String) (hq : isASCIIString q = true) :
    (goLen q = 0 ∨ contains s q = true) ↔ ciMatches q s = true := by
  constructor
  · rintro (h0 | hc)
    · exact ciMatches_of_goLen_zero q s h0
    · rw [contains] at hc
      by_cases h0 : goLen q = 0
      · exact ciMatches_of_goLen_zero q s h0
      · rw [if_neg h0] at hc
        by_cases hlen : goLen s < goLen q
        · rw [if_pos hlen] at hc
          exact absurd hc (by simp)
        · rw [if_neg hlen] at hc
          exact hc
  · intro hm
    by_cases h0 : goLen q = 0
    · exact Or.inl h0
    · right
      rw [contains, if_neg h0]
      by_cases hlen : goLen s < goLen q
      · exfalso
        have hle := listInfix_le_length _ _ hm
        rw [toLowerStr_length, toLowerStr_length] at hle
        have h1 := goLen_of_ascii q hq
        have h2 := length_le_goLen s
        omega
      · rw [if_neg hlen]
        exact hm

theorem searchAux_eq_ascii (q x : String) (hq : isASCIIString q = true)
    (L : List (String × UserR)) :
    searchAux q x L = L.filterMap (fun p =>
      if p.2.username ≠ x ∧ ciMatches q p.2.username = true
      then some (p.2.username, p.2.online) else none) := by
  induction L with
  | nil => rfl
  | cons p rest ih =>
    obtain ⟨k, u⟩ := p
    by_cases hx : u.username = x
    · simp [searchAux, hx, ih]
    · by_cases hc : goLen q = 0 ∨ contains u.username q = true
      · have hm : ciMatches q u.username = true := (contains_iff_ascii _ _ hq).mp hc
        simp [searchAux, hx, hc, hm, ih]
      · have hm : ¬ ciMatches q u.username = true :=
          fun hm => hc ((contains_iff_ascii _ _ hq).mpr hm)
        simp [searchAux, hx, hc, hm, ih]

/-! ### Claim C5 -/

/-- C5: for every pair of identities and every hub state,
`GetConversationMessages(A,B)` equals `GetConversationMessages(B,A)`
(the conversation key is canonical and order-independent), and when no
log exists for the pair the result is the empty sequence, not an
error. -/
theorem getConversation_symm_and_empty (h : Hub) (a b : String) :
    GetConversationMessages h a b = GetConversationMessages h b a ∧
    (alookup (ConvKey a b) h.conversations = none → GetConversationMessages h a b = []) := by
  constructor
  · rw [GetConversationMessages, GetConversationMessages, ConvKey_comm]
  · intro hn
    rw [GetConversationMessages, hn]
    rfl

/-- Witness for C5 at a concrete input: the empty hub has no log for
("alice","bob"), and the lookup returns the empty sequence. -/
theorem getConversation_symm_and_empty_witness :
    GetConversationMessages ⟨[], [], [], [], false, 0⟩ "alice" "bob" = []
      ∧ GetConversationMessages ⟨[], [], [], [], false, 0⟩ "alice" "bob"
        = GetConversationMessages ⟨[], [], [], [], false, 0⟩ "bob" "alice" :=
  ⟨(getConversation_symm_and_empty ⟨[], [], [], [], false, 0⟩ "alice" "bob").2 rfl,
   (getConversation_symm_and_empty ⟨[], [], [], [], false, 0⟩ "alice" "bob").1⟩

/-! ### Claim C9 -/

/-- The one-character string U+0130 LATIN CAPITAL LETTER I WITH DOT
ABOVE, whose Unicode simple lowercase is the ASCII 'i' while its UTF-8
encoding takes two bytes. -/
def dottedI : String := ⟨[Char.ofNat 0x130]⟩

/-- A hub whose only known identity is named "i". -/
def hubUserI : Hub := ⟨[], [("i", ⟨"i", true, some 1, 0⟩)], [], [], false, 0⟩

/-- Counterexample to C9 as stated: the known identity "i" contains the
query fragment U+0130 as a case-insensitive substring (its lowercase is
exactly "i"), yet `SearchUsers` returns the empty list: `contains`
compares byte lengths before lowering, and the 2-byte query exceeds the
1-byte name.  So for this query fragment the result is not "exactly the
known identities whose name contains q as a case-insensitive
substring". -/
theorem searchUsers_unicode_counterexample :
    alookup "i" hubUserI.users = some ⟨"i", true, some 1, 0⟩ ∧
    ciMatches dottedI "i" = true ∧
    SearchUsers hubUserI dottedI "zed" = [] :=
  ⟨by decide, by decide, by decide⟩

/-- C9 (amended): for every ASCII query fragment q, `SearchUsers(q, x)`
returns exactly the known identities whose name matches the spec's
case-insensitive substring predicate (`ciMatches`, under which the
empty fragment matches everything), always excluding the caller,
projected to (username, online).  The names may be arbitrary: an ASCII
query has one byte per character, and the only code points lowering
into ASCII (U+0130, U+212A) are embedded exactly, so the byte-length
early exit and the lowered comparison agree with Go here.  For
non-ASCII fragments the byte-length early exit can reject a fragment
whose lowercased form would match, so the exact-set reading fails
(see the counterexample). -/
theorem searchUsers_spec_ascii (h : Hub) (q x : String) (hq : isASCIIString q = true) :
    SearchUsers h q x = h.users.filterMap (fun p =>
      if p.2.username ≠ x ∧ ciMatches q p.2.username = true
      then some (p.2.username, p.2.online) else none) :=
  searchAux_eq_ascii q x hq h.users

/-- A hub knowing alice (online) and bob (offline). -/
def hubSearchPair : Hub :=
  ⟨[], [("alice", ⟨"alice", true, some 1, 0⟩), ("bob", ⟨"bob", false, none, 0⟩)],
   [], [], false, 0⟩

/-- Witness for the amended C9 at a concrete input: the ASCII fragment
"ali" matches alice case-insensitively and the caller bob is
excluded. -/
theorem searchUsers_spec_ascii_witness :
    isASCIIString "ali" = true ∧
    SearchUsers hubSearchPair "ali" "bob" = [("alice", true)] := by
  refine ⟨by decide, ?_⟩
  rw [searchUsers_spec_ascii hubSearchPair "ali" "bob" (by decide)]
  decide

/-! ### Claim C6 -/

theorem convEntries_peers (h : Hub) (username : String)
    (L : List (String × List Message)) (seen : List String) :
    ((convEntries h username L seen).map (fun e => e.peerUsername)).Nodup ∧
    ∀ e ∈ convEntries h username L seen, e.peerUsername ∉ seen := by
  induction L generalizing seen with
  | nil =>
    refine ⟨List.nodup_nil, ?_⟩
    intro e he
    simp [convEntries] at he
  | cons p rest ih =>
    obtain ⟨key, msgs⟩ := p
    rw [convEntries]
    cases hlast : msgs.getLast? with
    | none => exact ih seen
    | some lastMsg =>
      dsimp only
      by_cases htouch : lastMsg.fromU = username ∨ lastMsg.toU = username
      · rw [if_pos htouch]
        by_cases hseen : peerOf username lastMsg ∈ seen
        · rw [if_pos hseen]
          exact ih seen
        · rw [if_neg hseen]
          obtain ⟨ihn, ihs⟩ := ih (peerOf username lastMsg :: seen)
          constructor
          · rw [List.map_cons, List.nodup_cons]
            refine ⟨?_, ihn⟩
            intro hmem
            rcases List.mem_map.mp hmem with ⟨e, he, hpe⟩
            exact ihs e he (hpe ▸ List.mem_cons_self _ _)
          · intro e he
            rcases List.mem_cons.mp he with heq | he'
            · rw [heq]
              exact hseen
            · intro hc
              exact ihs e he' (List.mem_cons_of_mem _ hc)
      · rw [if_neg htouch]
        exact ih seen

theorem convEntries_source (h : Hub) (username : String)
    (L : List (String × List Message)) (seen : List String) :
    ∀ e ∈ convEntries h username L seen, ∃ key msgs lastMsg,
      (key, msgs) ∈ L ∧ msgs.getLast? = some lastMsg ∧
      (lastMsg.fromU = username ∨ lastMsg.toU = username) ∧
      e.peerUsername = peerOf username lastMsg ∧
      e.lastMessagePreview = lastMsg.content ∧
      e.lastMessageTime = lastMsg.timestamp := by
  induction L generalizing seen with
  | nil =>
    intro e he
    simp [convEntries] at he
  | cons p rest ih =>
    obtain ⟨key, msgs⟩ := p
    rw [convEntries]
    cases hlast : msgs.getLast? with
    | none =>
      intro e he
      obtain ⟨k', ms', lm', hmem, hrest⟩ := ih seen e he
      exact ⟨k', ms', lm', List.mem_cons_of_mem _ hmem, hrest⟩
    | some lastMsg =>
      dsimp only
      by_cases htouch : lastMsg.fromU = username ∨ lastMsg.toU = username
      · rw [if_pos htouch]
        by_cases hseen : peerOf username lastMsg ∈ seen
        · rw [if_pos hseen]
          intro e he
          obtain ⟨k', ms', lm', hmem, hrest⟩ := ih seen e he
          exact ⟨k', ms', lm', List.mem_cons_of_mem _ hmem, hrest⟩
        · rw [if_neg hseen]
          intro e he
          rcases List.mem_cons.mp he with heq | he'
          · exact ⟨key, msgs, lastMsg, List.mem_cons_self _ _, hlast, htouch,
              by rw [heq], by rw [heq], by rw [heq]⟩
          · obtain ⟨k', ms', lm', hmem, hrest⟩ := ih _ e he'
            exact ⟨k', ms', lm', List.mem_cons_of_mem _ hmem, hrest⟩
      · rw [if_neg htouch]
        intro e he
        obtain ⟨k', ms', lm', hmem, hrest⟩ := ih seen e he
        exact ⟨k', ms', lm', List.mem_cons_of_mem _ hmem, hrest⟩

/-- C6: for every hub state and identity, `GetConversations(X)` has
pairwise-distinct peer usernames, is sorted by last-message time in
descending order (`convLe`), and each entry is derived from the most
recent message of some conversation log touching X. -/
theorem getConversations_nodup_sorted (h : Hub) (x : String) :
    ((GetConversations h x).map (fun e => e.peerUsername)).Nodup ∧
    List.Sorted convLe (GetConversations h x) ∧
    ∀ e ∈ GetConversations h x, ∃ key msgs lastMsg,
      (key, msgs) ∈ h.conversations ∧ msgs.getLast? = some lastMsg ∧
      (lastMsg.fromU = x ∨ lastMsg.toU = x) ∧
      e.peerUsername = peerOf x lastMsg ∧
      e.lastMessagePreview = lastMsg.content ∧
      e.lastMessageTime = lastMsg.timestamp := by
  refine ⟨?_, List.sorted_insertionSort _ _, ?_⟩
  · have hperm := List.perm_insertionSort convLe (convEntries h x h.conversations [])
    exact ((hperm.map (fun e => e.peerUsername)).nodup_iff).mpr
      (convEntries_peers h x h.conversations []).1
  · intro e he
    have hperm := List.perm_insertionSort convLe (convEntries h x h.conversations [])
    exact convEntries_source h x h.conversations [] e (hperm.mem_iff.mp he)

/-! ### Claim C3 -/

/-- C3: a delivery attempt to a registered connection whose outbound
queue is full closes that queue (its frames retained — nothing is
silently dropped while the connection stays registered) and removes the
connection from the client table immediately; the user table, the
conversation logs, every other queue and every other client entry are
unchanged. -/
theorem sendToClient_backpressure (h : Hub) (c : Client) (f : Frame) (q : Queue)
    (hp : h.panicked = false) (hn : keysNodup h.clients)
    (hq : alookup c.connId h.queues = some q) (hcl : q.closed = false)
    (hfull : ¬ q.frames.length < queueCap) :
    alookup c.connId (sendToClient h c f).queues = some ⟨q.frames, true⟩ ∧
    alookup c.username (sendToClient h c f).clients = none ∧
    (sendToClient h c f).users = h.users ∧
    (sendToClient h c f).conversations = h.conversations ∧
    (∀ cid, cid ≠ c.connId → alookup cid (sendToClient h c f).queues = alookup cid h.queues) ∧
    (∀ un, un ≠ c.username → alookup un (sendToClient h c f).clients = alookup un h.clients) := by
  rw [sendToClient_overflow h c f q hp hq hcl hfull]
  exact ⟨alookup_aupsert_self _ _ _, alookup_aerase_self _ _ hn, rfl, rfl,
    fun cid hcid => alookup_aupsert_ne _ _ _ _ hcid,
    fun un hun => alookup_aerase_ne _ _ _ hun⟩

/-- A queue filled to capacity with status frames. -/
def fullQ : Queue := ⟨List.replicate 256 (Frame.status "x" true), false⟩

/-- A hub with the single client alice whose queue is full. -/
def hubFullAlice : Hub := ⟨[("alice", ⟨"alice", 1⟩)], [], [], [(1, fullQ)], false, 0⟩

/-- Witness for C3 at a concrete input: alice's full queue is closed and
alice is removed from the client table. -/
theorem sendToClient_backpressure_witness :
    (¬ fullQ.frames.length < queueCap) ∧
    alookup 1 (sendToClient hubFullAlice ⟨"alice", 1⟩ (Frame.typing "bob" true)).queues
      = some ⟨fullQ.frames, true⟩ ∧
    alookup "alice" (sendToClient hubFullAlice ⟨"alice", 1⟩ (Frame.typing "bob" true)).clients
      = none := by
  have hmain := sendToClient_backpressure hubFullAlice ⟨"alice", 1⟩ (Frame.typing "bob" true)
    fullQ rfl (by decide) rfl rfl (by decide)
  exact ⟨by decide, hmain.1, hmain.2.1⟩

/-! ### Claim C7 -/

/-- A hub with the single client bob whose queue is full. -/
def hubFullBob : Hub := ⟨[("bob", ⟨"bob", 1⟩)], [], [], [(1, fullQ)], false, 0⟩

/-- Counterexample to C7 as stated: "bob" has a registered connection,
yet `handleTypingEvent` enqueues no typing envelope for it — the queue
is full, so the connection's queue is closed (still holding only the
256 status frames, no typing frame) and bob is removed from the client
table. -/
theorem handleTypingEvent_full_counterexample :
    (alookup "bob" hubFullBob.clients).isSome = true ∧
    (handleTypingEvent hubFullBob "alice" "bob" true).queues
      = [(1, ⟨List.replicate 256 (Frame.status "x" true), true⟩)] ∧
    alookup "bob" (handleTypingEvent hubFullBob "alice" "bob" true).clients = none := by
  refine ⟨rfl, ?_, by decide⟩
  decide

/-- C7 (amended): a typing signal to a recipient with no registered
connection enqueues no frame anywhere, produces no error, and leaves the
hub state unchanged; a typing signal to a registered recipient whose
queue is open and not full enqueues exactly one typing envelope carrying
the sender and the flag on that recipient's queue only, leaving clients,
users, conversations and all other queues unchanged.  (A full recipient
queue instead triggers the backpressure disconnect of that recipient.) -/
theorem handleTypingEvent_spec (h : Hub) (fromU toU : String) (ist : Bool) :
    (alookup toU h.clients = none → handleTypingEvent h fromU toU ist = h) ∧
    (∀ rc q, alookup toU h.clients = some rc →
      h.panicked = false →
      alookup rc.connId h.queues = some q → q.closed = false →
      q.frames.length < queueCap →
      alookup rc.connId (handleTypingEvent h fromU toU ist).queues
        = some ⟨q.frames ++ [Frame.typing fromU ist], false⟩ ∧
      (handleTypingEvent h fromU toU ist).clients = h.clients ∧
      (handleTypingEvent h fromU toU ist).users = h.users ∧
      (handleTypingEvent h fromU toU ist).conversations = h.conversations ∧
      ∀ cid, cid ≠ rc.connId →
        alookup cid (handleTypingEvent h fromU toU ist).queues = alookup cid h.queues) := by
  constructor
  · intro hn
    rw [handleTypingEvent, hn]
  · intro rc q hrc hp hq hcl hroom
    have heq : handleTypingEvent h fromU toU ist = sendToClient h rc (Frame.typing fromU ist) := by
      rw [handleTypingEvent, hrc]
    rw [heq, sendToClient_success h rc (Frame.typing fromU ist) q hp hq hcl hroom]
    exact ⟨alookup_aupsert_self _ _ _, rfl, rfl, rfl,
      fun cid hcid => alookup_aupsert_ne _ _ _ _ hcid⟩

/-- A hub with the single client bob whose queue is empty and open. -/
def hubIdleBob : Hub := ⟨[("bob", ⟨"bob", 1⟩)], [], [], [(1, ⟨[], false⟩)], false, 0⟩

/-- Witness for the amended C7 at concrete inputs: both the
unregistered-recipient branch and the registered-recipient branch. -/
theorem handleTypingEvent_spec_witness :
    alookup 1 (handleTypingEvent hubIdleBob "alice" "bob" true).queues
      = some ⟨[Frame.typing "alice" true], false⟩ ∧
    handleTypingEvent hubIdleBob "alice" "carol" false = hubIdleBob := by
  have h2 := (handleTypingEvent_spec hubIdleBob "alice" "bob" true).2
    ⟨"bob", 1⟩ ⟨[], false⟩ (by decide) rfl rfl rfl (by decide)
  have h1 := (handleTypingEvent_spec hubIdleBob "alice" "carol" false).1 (by decide)
  exact ⟨by simpa using h2.1, h1⟩

/-! ### Branch equations for `handleInboundMessageWithSender` -/

theorem setLastDelivered_append (l : List Message) (m : Message) :
    setLastDelivered (l ++ [m]) = l ++ [{ m with status := "delivered" }] := by
  induction l with
  | nil => rfl
  | cons a rest ih =>
    cases hl : rest ++ [m] with
    | nil => simp at hl
    | cons b t =>
      have hstep : setLastDelivered (a :: (rest ++ [m])) = a :: setLastDelivered (rest ++ [m]) := by
        rw [hl]
        rfl
      simpa [hstep] using ih

theorem markLastDelivered_at (h : Hub) (key : String) (ms : List Message)
    (hk : alookup key h.conversations = some ms) :
    markLastDelivered h key =
      { h with conversations := aupsert key (setLastDelivered ms) h.conversations } := by
  rw [markLastDelivered, hk]

theorem handleInbound_nn (h : Hub) (fromU : String) (msg : InboundMessage) (now : Nat)
    (hsc : alookup fromU h.clients = none) (hrc : alookup msg.toU h.clients = none) :
    handleInboundMessageWithSender h fromU msg now = appendMessageStage h fromU msg now := by
  rw [handleInboundMessageWithSender]
  simp only [show (appendMessageStage h fromU msg now).clients = h.clients from rfl, hsc, hrc]

theorem handleInbound_sn (h : Hub) (fromU : String) (msg : InboundMessage) (now : Nat)
    (sc : Client)
    (hsc : alookup fromU h.clients = some sc) (hrc : alookup msg.toU h.clients = none) :
    handleInboundMessageWithSender h fromU msg now =
      sendToClient (appendMessageStage h fromU msg now) sc (senderFrame h fromU msg now) := by
  rw [handleInboundMessageWithSender]
  simp only [show (appendMessageStage h fromU msg now).clients = h.clients from rfl, hsc, hrc]

theorem handleInbound_nr (h : Hub) (fromU : String) (msg : InboundMessage) (now : Nat)
    (rc : Client)
    (hsc : alookup fromU h.clients = none) (hrc : alookup msg.toU h.clients = some rc) :
    handleInboundMessageWithSender h fromU msg now =
      markLastDelivered
        (sendToClient (appendMessageStage h fromU msg now) rc (recipientFrame h fromU msg now))
        (ConvKey fromU msg.toU) := by
  rw [handleInboundMessageWithSender]
  simp only [show (appendMessageStage h fromU msg now).clients = h.clients from rfl, hsc, hrc]

theorem handleInbound_sr (h : Hub) (fromU : String) (msg : InboundMessage) (now : Nat)
    (sc rc : Client)
    (hsc : alookup fromU h.clients = some sc) (hrc : alookup msg.toU h.clients = some rc) :
    handleInboundMessageWithSender h fromU msg now =
      sendToClient
        (markLastDelivered
          (sendToClient
            (sendToClient (appendMessageStage h fromU msg now) sc (senderFrame h fromU msg now))
            rc (recipientFrame h fromU msg now))
          (ConvKey fromU msg.toU))
        sc (ackFrame h) := by
  rw [handleInboundMessageWithSender]
  simp only [show (appendMessageStage h fromU msg now).clients = h.clients from rfl, hsc, hrc]

/-- Routing with a registered sender and unregistered recipient: the
message is stored with status sent and the confirmation envelope is
appended to the sender's queue; nothing else changes. -/
theorem inbound_sn_state (h : Hub) (fromU : String) (msg : InboundMessage) (now : Nat)
    (sc : Client) (qs : Queue)
    (hp : h.panicked = false)
    (hsc : alookup fromU h.clients = some sc) (hrc : alookup msg.toU h.clients = none)
    (hqs : alookup sc.connId h.queues = some qs) (hcls : qs.closed = false)
    (hlen : qs.frames.length < queueCap) :
    handleInboundMessageWithSender h fromU msg now =
      ⟨h.clients, h.users,
       aupsert (ConvKey fromU msg.toU)
         (((alookup (ConvKey fromU msg.toU) h.conversations).getD []) ++
           [sentMessage h fromU msg now]) h.conversations,
       aupsert sc.connId ⟨qs.frames ++ [senderFrame h fromU msg now], false⟩ h.queues,
       h.panicked, h.nextId + 1⟩ := by
  rw [handleInbound_sn h fromU msg now sc hsc hrc]
  exact sendToClient_success _ sc (senderFrame h fromU msg now) qs hp hqs hcls hlen

/-- Routing with an unregistered sender and registered recipient: the
message is stored and flipped to delivered, the delivered envelope is
appended to the recipient's queue, and no ack is produced anywhere. -/
theorem inbound_nr_state (h : Hub) (fromU : String) (msg : InboundMessage) (now : Nat)
    (rc : Client) (qr : Queue)
    (hp : h.panicked = false)
    (hsc : alookup fromU h.clients = none) (hrc : alookup msg.toU h.clients = some rc)
    (hqr : alookup rc.connId h.queues = some qr) (hclr : qr.closed = false)
    (hlen : qr.frames.length < queueCap) :
    handleInboundMessageWithSender h fromU msg now =
      ⟨h.clients, h.users,
       aupsert (ConvKey fromU msg.toU)
         (((alookup (ConvKey fromU msg.toU) h.conversations).getD []) ++
           [{ sentMessage h fromU msg now with status := "delivered" }])
         (aupsert (ConvKey fromU msg.toU)
           (((alookup (ConvKey fromU msg.toU) h.conversations).getD []) ++
             [sentMessage h fromU msg now]) h.conversations),
       aupsert rc.connId ⟨qr.frames ++ [recipientFrame h fromU msg now], false⟩ h.queues,
       h.panicked, h.nextId + 1⟩ := by
  rw [handleInbound_nr h fromU msg now rc hsc hrc]
  have e1 : sendToClient (appendMessageStage h fromU msg now) rc (recipientFrame h fromU msg now)
      = ⟨h.clients, h.users,
         aupsert (ConvKey fromU msg.toU)
           (((alookup (ConvKey fromU msg.toU) h.conversations).getD []) ++
             [sentMessage h fromU msg now]) h.conversations,
         aupsert rc.connId ⟨qr.frames ++ [recipientFrame h fromU msg now], false⟩ h.queues,
         h.panicked, h.nextId + 1⟩ :=
    sendToClient_success _ rc (recipientFrame h fromU msg now) qr hp hqr hclr hlen
  rw [e1]
  rw [markLastDelivered_at _ (ConvKey fromU msg.toU)
      (((alookup (ConvKey fromU msg.toU) h.conversations).getD []) ++
        [sentMessage h fromU msg now])
      (alookup_aupsert_self _ _ _)]
  rw [setLastDelivered_append]

/-- Routing with both ends registered on distinct connections: the
message is stored and flipped to delivered, the sender's queue receives
the sent confirmation then the delivered ack, the recipient's queue
receives the delivered envelope. -/
theorem inbound_sr_state (h : Hub) (fromU : String) (msg : InboundMessage) (now : Nat)
    (sc rc : Client) (qs qr : Queue)
    (hp : h.panicked = false)
    (hsc : alookup fromU h.clients = some sc) (hrc : alookup msg.toU h.clients = some rc)
    (hne : rc.connId ≠ sc.connId)
    (hqs : alookup sc.connId h.queues = some qs) (hcls : qs.closed = false)
    (hlens : qs.frames.length + 2 ≤ queueCap)
    (hqr : alookup rc.connId h.queues = some qr) (hclr : qr.closed = false)
    (hlenr : qr.frames.length < queueCap) :
    handleInboundMessageWithSender h fromU msg now =
      ⟨h.clients, h.users,
       aupsert (ConvKey fromU msg.toU)
         (((alookup (ConvKey fromU msg.toU) h.conversations).getD []) ++
           [{ sentMessage h fromU msg now with status := "delivered" }])
         (aupsert (ConvKey fromU msg.toU)
           (((alookup (ConvKey fromU msg.toU) h.conversations).getD []) ++
             [sentMessage h fromU msg now]) h.conversations),
       aupsert sc.connId
         ⟨(qs.frames ++ [senderFrame h fromU msg now]) ++ [ackFrame h], false⟩
         (aupsert rc.connId ⟨qr.frames ++ [recipientFrame h fromU msg now], false⟩
           (aupsert sc.connId ⟨qs.frames ++ [senderFrame h fromU msg now], false⟩ h.queues)),
       h.panicked, h.nextId + 1⟩ := by
  rw [handleInbound_sr h fromU msg now sc rc hsc hrc]
  have e1 : sendToClient (appendMessageStage h fromU msg now) sc (senderFrame h fromU msg now)
      = ⟨h.clients, h.users,
         aupsert (ConvKey fromU msg.toU)
           (((alookup (ConvKey fromU msg.toU) h.conversations).getD []) ++
             [sentMessage h fromU msg now]) h.conversations,
         aupsert sc.connId ⟨qs.frames ++ [senderFrame h fromU msg now], false⟩ h.queues,
         h.panicked, h.nextId + 1⟩ :=
    sendToClient_success _ sc (senderFrame h fromU msg now) qs hp hqs hcls (by omega)
  rw [e1]
  have hq2 : alookup rc.connId
      (aupsert sc.connId ⟨qs.frames ++ [senderFrame h fromU msg now], false⟩ h.queues)
      = some qr := by
    rw [alookup_aupsert_ne _ _ _ _ hne]
    exact hqr
  have e2 : sendToClient
      (⟨h.clients, h.users,
        aupsert (ConvKey fromU msg.toU)
          (((alookup (ConvKey fromU msg.toU) h.conversations).getD []) ++
            [sentMessage h fromU msg now]) h.conversations,
        aupsert sc.connId ⟨qs.frames ++ [senderFrame h fromU msg now], false⟩ h.queues,
        h.panicked, h.nextId + 1⟩ : Hub) rc (recipientFrame h fromU msg now)
      = ⟨h.clients, h.users,
         aupsert (ConvKey fromU msg.toU)
           (((alookup (ConvKey fromU msg.toU) h.conversations).getD []) ++
             [sentMessage h fromU msg now]) h.conversations,
         aupsert rc.connId ⟨qr.frames ++ [recipientFrame h fromU msg now], false⟩
           (aupsert sc.connId ⟨qs.frames ++ [senderFrame h fromU msg now], false⟩ h.queues),
         h.panicked, h.nextId + 1⟩ :=
    sendToClient_success _ rc (recipientFrame h fromU msg now) qr hp hq2 hclr hlenr
  rw [e2]
  rw [markLastDelivered_at _ (ConvKey fromU msg.toU)
      (((alookup (ConvKey fromU msg.toU) h.conversations).getD []) ++
        [sentMessage h fromU msg now])
      (alookup_aupsert_self _ _ _)]
  rw [setLastDelivered_append]
  have hq4 : alookup sc.connId
      (aupsert rc.connId ⟨qr.frames ++ [recipientFrame h fromU msg now], false⟩
        (aupsert sc.connId ⟨qs.frames ++ [senderFrame h fromU msg now], false⟩ h.queues))
      = some ⟨qs.frames ++ [senderFrame h fromU msg now], false⟩ := by
    rw [alookup_aupsert_ne _ _ _ _ (Ne.symm hne)]
    exact alookup_aupsert_self _ _ _
  exact sendToClient_success _ sc (ackFrame h)
    ⟨qs.frames ++ [senderFrame h fromU msg now], false⟩ hp hq4 rfl
    (by simp only [List.length_append, List.length_singleton]; omega)

/-- Routing a self-message on a registered connection: the single queue
receives the sent confirmation, the delivered copy, and the ack, in that
order. -/
theorem inbound_self_state (h : Hub) (fromU : String) (msg : InboundMessage) (now : Nat)
    (sc : Client) (qs : Queue)
    (hp : h.panicked = false)
    (hsc : alookup fromU h.clients = some sc) (hrc : alookup msg.toU h.clients = some sc)
    (hqs : alookup sc.connId h.queues = some qs) (hcls : qs.closed = false)
    (hlen : qs.frames.length + 3 ≤ queueCap) :
    handleInboundMessageWithSender h fromU msg now =
      ⟨h.clients, h.users,
       aupsert (ConvKey fromU msg.toU)
         (((alookup (ConvKey fromU msg.toU) h.conversations).getD []) ++
           [{ sentMessage h fromU msg now with status := "delivered" }])
         (aupsert (ConvKey fromU msg.toU)
           (((alookup (ConvKey fromU msg.toU) h.conversations).getD []) ++
             [sentMessage h fromU msg now]) h.conversations),
       aupsert sc.connId
         ⟨((qs.frames ++ [senderFrame h fromU msg now]) ++ [recipientFrame h fromU msg now]) ++
           [ackFrame h], false⟩
         (aupsert sc.connId
           ⟨(qs.frames ++ [senderFrame h fromU msg now]) ++ [recipientFrame h fromU msg now],
            false⟩
           (aupsert sc.connId ⟨qs.frames ++ [senderFrame h fromU msg now], false⟩ h.queues)),
       h.panicked, h.nextId + 1⟩ := by
  rw [handleInbound_sr h fromU msg now sc sc hsc hrc]
  have e1 : sendToClient (appendMessageStage h fromU msg now) sc (senderFrame h fromU msg now)
      = ⟨h.clients, h.users,
         aupsert (ConvKey fromU msg.toU)
           (((alookup (ConvKey fromU msg.toU) h.conversations).getD []) ++
             [sentMessage h fromU msg now]) h.conversations,
         aupsert sc.connId ⟨qs.frames ++ [senderFrame h fromU msg now], false⟩ h.queues,
         h.panicked, h.nextId + 1⟩ :=
    sendToClient_success _ sc (senderFrame h fromU msg now) qs hp hqs hcls (by omega)
  rw [e1]
  have e2 : sendToClient
      (⟨h.clients, h.users,
        aupsert (ConvKey fromU msg.toU)
          (((alookup (ConvKey fromU msg.toU) h.conversations).getD []) ++
            [sentMessage h fromU msg now]) h.conversations,
        aupsert sc.connId ⟨qs.frames ++ [senderFrame h fromU msg now], false⟩ h.queues,
        h.panicked, h.nextId + 1⟩ : Hub) sc (recipientFrame h fromU msg now)
      = ⟨h.clients, h.users,
         aupsert (ConvKey fromU msg.toU)
           (((alookup (ConvKey fromU msg.toU) h.conversations).getD []) ++
             [sentMessage h fromU msg now]) h.conversations,
         aupsert sc.connId
           ⟨(qs.frames ++ [senderFrame h fromU msg now]) ++ [recipientFrame h fromU msg now],
            false⟩
           (aupsert sc.connId ⟨qs.frames ++ [senderFrame h fromU msg now], false⟩ h.queues),
         h.panicked, h.nextId + 1⟩ :=
    sendToClient_success _ sc (recipientFrame h fromU msg now)
      ⟨qs.frames ++ [senderFrame h fromU msg now], false⟩ hp
      (alookup_aupsert_self _ _ _) rfl
      (by simp only [List.length_append, List.length_singleton]; omega)
  rw [e2]
  rw [markLastDelivered_at _ (ConvKey fromU msg.toU)
      (((alookup (ConvKey fromU msg.toU) h.conversations).getD []) ++
        [sentMessage h fromU msg now])
      (alookup_aupsert_self _ _ _)]
  rw [setLastDelivered_append]
  exact sendToClient_success _ sc (ackFrame h)
    ⟨(qs.frames ++ [senderFrame h fromU msg now]) ++ [recipientFrame h fromU msg now], false⟩
    hp (alookup_aupsert_self _ _ _) rfl
    (by simp only [List.length_append, List.length_singleton]; omega)


/-! ### Claim C2 -/

/-- Counterexample to C2 as stated: in `hubIdleBob` the recipient "bob"
has a registered connection at call time, yet routing a message from the
(unregistered) sender "alice" produces no ack envelope at all — the only
queue in the hub ends up holding exactly the delivered message envelope —
although the stored message's deliveryState does become delivered.  So
"exactly one ack envelope with status delivered is enqueued for the
sender" fails. -/
theorem routeMessage_no_ack_counterexample :
    (alookup "bob" hubIdleBob.clients).isSome = true ∧
    (handleInboundMessageWithSender hubIdleBob "alice" ⟨"bob", "hi"⟩ 7).queues
      = [(1, ⟨[Frame.message 0 "alice" "bob" "hi" 7 "delivered"], false⟩)] ∧
    alookup (ConvKey "alice" "bob")
        (handleInboundMessageWithSender hubIdleBob "alice" ⟨"bob", "hi"⟩ 7).conversations
      = some [⟨0, "alice", "bob", "hi", 7, "delivered"⟩] := by
  have hs := inbound_nr_state hubIdleBob "alice" ⟨"bob", "hi"⟩ 7 ⟨"bob", 1⟩ ⟨[], false⟩
    rfl (by decide) (by decide) rfl rfl (by decide)
  rw [hs]
  refine ⟨rfl, by decide, ?_⟩
  exact alookup_aupsert_self _ _ _

/-- C2 (amended): assume the sender also has a registered connection at
call time and no queue overflows (the sender's queue has room for all
enqueued envelopes, the recipient's for one).  Then: if a recipient
connection is registered, the stored message's deliveryState becomes
delivered, the sender's queue receives the send-confirmation envelope
(status sent) followed by exactly one delivered-ack envelope, and the
recipient's queue receives exactly one message envelope with status
delivered (for a self-message the single queue receives confirmation,
delivered copy, ack in order); if no recipient connection is registered,
no ack is produced, only the confirmation lands on the sender's queue,
no other queue changes, and the stored deliveryState remains sent. -/
theorem routeMessage_ack_spec (h : Hub) (fromU : String) (msg : InboundMessage) (now : Nat)
    (sc : Client) (qs : Queue)
    (hp : h.panicked = false)
    (hsc : alookup fromU h.clients = some sc)
    (hqs : alookup sc.connId h.queues = some qs)
    (hcls : qs.closed = false)
    (hlen : qs.frames.length + 3 ≤ queueCap)
    (hcc : ∀ p ∈ h.clients, ∀ p' ∈ h.clients, p.1 ≠ p'.1 → p.2.connId ≠ p'.2.connId)
    (hrq : ∀ rc, alookup msg.toU h.clients = some rc → rc.connId ≠ sc.connId →
      ∃ qr, alookup rc.connId h.queues = some qr ∧ qr.closed = false ∧
        qr.frames.length < queueCap) :
    (∀ rc, alookup msg.toU h.clients = some rc →
      alookup (ConvKey fromU msg.toU)
          (handleInboundMessageWithSender h fromU msg now).conversations
        = some ((((alookup (ConvKey fromU msg.toU) h.conversations).getD [])) ++
            [{ sentMessage h fromU msg now with status := "delivered" }]) ∧
      (rc.connId = sc.connId →
        alookup sc.connId (handleInboundMessageWithSender h fromU msg now).queues
          = some ⟨((qs.frames ++ [senderFrame h fromU msg now]) ++
              [recipientFrame h fromU msg now]) ++ [ackFrame h], false⟩) ∧
      (rc.connId ≠ sc.connId →
        alookup sc.connId (handleInboundMessageWithSender h fromU msg now).queues
          = some ⟨(qs.frames ++ [senderFrame h fromU msg now]) ++ [ackFrame h], false⟩ ∧
        ∀ qr, alookup rc.connId h.queues = some qr →
          alookup rc.connId (handleInboundMessageWithSender h fromU msg now).queues
            = some ⟨qr.frames ++ [recipientFrame h fromU msg now], false⟩)) ∧
    (alookup msg.toU h.clients = none →
      alookup (ConvKey fromU msg.toU)
          (handleInboundMessageWithSender h fromU msg now).conversations
        = some ((((alookup (ConvKey fromU msg.toU) h.conversations).getD [])) ++
            [sentMessage h fromU msg now]) ∧
      alookup sc.connId (handleInboundMessageWithSender h fromU msg now).queues
        = some ⟨qs.frames ++ [senderFrame h fromU msg now], false⟩ ∧
      ∀ cid, cid ≠ sc.connId →
        alookup cid (handleInboundMessageWithSender h fromU msg now).queues
          = alookup cid h.queues) := by
  constructor
  · intro rc hrc
    by_cases hid : rc.connId = sc.connId
    · by_cases hft : fromU = msg.toU
      · have hrcsc : rc = sc := by
          rw [← hft, hsc] at hrc
          exact (Option.some_inj.mp hrc).symm
        subst hrcsc
        have hst := inbound_self_state h fromU msg now rc qs hp hsc hrc hqs hcls hlen
        refine ⟨?_, ?_, ?_⟩
        · rw [hst]
          exact alookup_aupsert_self _ _ _
        · intro _
          rw [hst]
          exact alookup_aupsert_self _ _ _
        · intro hne
          exact absurd rfl hne
      · exact absurd hid.symm
          (hcc (fromU, sc) (alookup_mem _ _ _ hsc) (msg.toU, rc) (alookup_mem _ _ _ hrc) hft)
    · obtain ⟨qr, hqr, hclr, hlenr⟩ := hrq rc hrc hid
      have hst := inbound_sr_state h fromU msg now sc rc qs qr hp hsc hrc hid hqs hcls
        (by omega) hqr hclr hlenr
      refine ⟨?_, ?_, ?_⟩
      · rw [hst]
        exact alookup_aupsert_self _ _ _
      · intro heq
        exact absurd heq hid
      · intro _
        constructor
        · rw [hst]
          exact alookup_aupsert_self _ _ _
        · intro qr' hqr'
          have hqq : qr' = qr := by
            rw [hqr] at hqr'
            exact (Option.some_inj.mp hqr').symm
          subst hqq
          rw [hst]
          rw [alookup_aupsert_ne _ _ _ _ hid]
          exact alookup_aupsert_self _ _ _
  · intro hnone
    have hst := inbound_sn_state h fromU msg now sc qs hp hsc hnone hqs hcls (by omega)
    refine ⟨?_, ?_, ?_⟩
    · rw [hst]
      exact alookup_aupsert_self _ _ _
    · rw [hst]
      exact alookup_aupsert_self _ _ _
    · intro cid hcid
      rw [hst]
      exact alookup_aupsert_ne _ _ _ _ hcid

/-- A hub with alice (connection 1) and bob (connection 2) registered,
both queues empty and open. -/
def hubAliceBob : Hub :=
  ⟨[("alice", ⟨"alice", 1⟩), ("bob", ⟨"bob", 2⟩)],
   [("alice", ⟨"alice", true, some 1, 0⟩), ("bob", ⟨"bob", true, some 2, 0⟩)],
   [], [(1, ⟨[], false⟩), (2, ⟨[], false⟩)], false, 0⟩

/-- Witness for the amended C2 at a concrete input: alice sends to bob,
both registered; alice's queue receives the confirmation then the ack,
bob's queue receives the delivered envelope, and the stored message is
delivered. -/
theorem routeMessage_ack_spec_witness :
    alookup (ConvKey "alice" (InboundMessage.toU ⟨"bob", "hi"⟩))
        (handleInboundMessageWithSender hubAliceBob "alice" ⟨"bob", "hi"⟩ 3).conversations
      = some [{ sentMessage hubAliceBob "alice" ⟨"bob", "hi"⟩ 3 with status := "delivered" }] ∧
    alookup 1 (handleInboundMessageWithSender hubAliceBob "alice" ⟨"bob", "hi"⟩ 3).queues
      = some ⟨[senderFrame hubAliceBob "alice" ⟨"bob", "hi"⟩ 3, ackFrame hubAliceBob], false⟩ ∧
    alookup 2 (handleInboundMessageWithSender hubAliceBob "alice" ⟨"bob", "hi"⟩ 3).queues
      = some ⟨[recipientFrame hubAliceBob "alice" ⟨"bob", "hi"⟩ 3], false⟩ := by
  have hmain := routeMessage_ack_spec hubAliceBob "alice" ⟨"bob", "hi"⟩ 3 ⟨"alice", 1⟩
    ⟨[], false⟩ rfl (by decide) rfl rfl (by decide) (by decide)
    (by
      intro rc hrc hne
      have hrc' : rc = ⟨"bob", 2⟩ := by
        have : some (⟨"bob", 2⟩ : Client) = some rc := by
          rw [← hrc]
          decide
        exact (Option.some_inj.mp this).symm
      subst hrc'
      exact ⟨⟨[], false⟩, rfl, rfl, by decide⟩)
  obtain ⟨hreg, _⟩ := hmain
  have hb := hreg ⟨"bob", 2⟩ (by decide)
  obtain ⟨hconv, _, hdist⟩ := hb
  obtain ⟨hsq, hrq2⟩ := hdist (by decide)
  refine ⟨hconv, ?_, ?_⟩
  · simpa using hsq
  · simpa using hrq2 ⟨[], false⟩ rfl

/-! ### Claim C10 -/

/-- C10: when no queue overflows, routing a message appends exactly one
message — the freshly created one — to exactly the conversation log of
the canonical pair of sender and recipient (with status delivered when a
recipient connection is registered, sent otherwise), regardless of
whether either party is registered; every other conversation log, the
client table and the user table are left unchanged. -/
theorem routeMessage_frame_effect (h : Hub) (fromU : String) (msg : InboundMessage) (now : Nat)
    (hp : h.panicked = false)
    (hcc : ∀ p ∈ h.clients, ∀ p' ∈ h.clients, p.1 ≠ p'.1 → p.2.connId ≠ p'.2.connId)
    (hsq : ∀ sc, alookup fromU h.clients = some sc →
      ∃ qs, alookup sc.connId h.queues = some qs ∧ qs.closed = false ∧
        qs.frames.length + 3 ≤ queueCap)
    (hrq : ∀ rc, alookup msg.toU h.clients = some rc →
      ∃ qr, alookup rc.connId h.queues = some qr ∧ qr.closed = false ∧
        qr.frames.length + 3 ≤ queueCap) :
    (handleInboundMessageWithSender h fromU msg now).clients = h.clients ∧
    (handleInboundMessageWithSender h fromU msg now).users = h.users ∧
    (∀ rc, alookup msg.toU h.clients = some rc →
      alookup (ConvKey fromU msg.toU)
          (handleInboundMessageWithSender h fromU msg now).conversations
        = some ((((alookup (ConvKey fromU msg.toU) h.conversations).getD [])) ++
            [{ sentMessage h fromU msg now with status := "delivered" }])) ∧
    (alookup msg.toU h.clients = none →
      alookup (ConvKey fromU msg.toU)
          (handleInboundMessageWithSender h fromU msg now).conversations
        = some ((((alookup (ConvKey fromU msg.toU) h.conversations).getD [])) ++
            [sentMessage h fromU msg now])) ∧
    (∀ k, k ≠ ConvKey fromU msg.toU →
      alookup k (handleInboundMessageWithSender h fromU msg now).conversations
        = alookup k h.conversations) := by
  cases hscl : alookup fromU h.clients with
  | none =>
    cases hrcl : alookup msg.toU h.clients with
    | none =>
      have hst := handleInbound_nn h fromU msg now hscl hrcl
      refine ⟨by rw [hst]; rfl, by rw [hst]; rfl, ?_, ?_, ?_⟩
      · intro rc hrc
        exact Option.noConfusion hrc
      · intro _
        rw [hst]
        exact alookup_aupsert_self _ _ _
      · intro k hk
        rw [hst]
        exact alookup_aupsert_ne _ _ _ _ hk
    | some rc =>
      obtain ⟨qr, hqr, hclr, hlenr⟩ := hrq rc hrcl
      have hst := inbound_nr_state h fromU msg now rc qr hp hscl hrcl hqr hclr (by omega)
      refine ⟨by rw [hst], by rw [hst], ?_, ?_, ?_⟩
      · intro rc' hrc'
        rw [hst]
        exact alookup_aupsert_self _ _ _
      · intro hnone
        exact Option.noConfusion hnone
      · intro k hk
        rw [hst]
        show alookup k (aupsert _ _ (aupsert _ _ h.conversations)) = alookup k h.conversations
        rw [alookup_aupsert_ne _ _ _ _ hk, alookup_aupsert_ne _ _ _ _ hk]
  | some sc =>
    obtain ⟨qs, hqs, hcls, hlens⟩ := hsq sc hscl
    cases hrcl : alookup msg.toU h.clients with
    | none =>
      have hst := inbound_sn_state h fromU msg now sc qs hp hscl hrcl hqs hcls (by omega)
      refine ⟨by rw [hst], by rw [hst], ?_, ?_, ?_⟩
      · intro rc hrc
        exact Option.noConfusion hrc
      · intro _
        rw [hst]
        exact alookup_aupsert_self _ _ _
      · intro k hk
        rw [hst]
        exact alookup_aupsert_ne _ _ _ _ hk
    | some rc =>
      by_cases hid : rc.connId = sc.connId
      · by_cases hft : fromU = msg.toU
        · have hrcsc : rc = sc := by
            rw [← hft, hscl] at hrcl
            exact (Option.some_inj.mp hrcl).symm
          subst hrcsc
          have hst := inbound_self_state h fromU msg now rc qs hp hscl hrcl hqs hcls hlens
          refine ⟨by rw [hst], by rw [hst], ?_, ?_, ?_⟩
          · intro rc' hrc'
            rw [hst]
            exact alookup_aupsert_self _ _ _
          · intro hnone
            exact Option.noConfusion hnone
          · intro k hk
            rw [hst]
            show alookup k (aupsert _ _ (aupsert _ _ h.conversations)) = alookup k h.conversations
            rw [alookup_aupsert_ne _ _ _ _ hk, alookup_aupsert_ne _ _ _ _ hk]
        · exact absurd hid.symm
            (hcc (fromU, sc) (alookup_mem _ _ _ hscl) (msg.toU, rc) (alookup_mem _ _ _ hrcl) hft)
      · obtain ⟨qr, hqr, hclr, hlenr⟩ := hrq rc hrcl
        have hst := inbound_sr_state h fromU msg now sc rc qs qr hp hscl hrcl hid hqs hcls
          (by omega) hqr hclr (by omega)
        refine ⟨by rw [hst], by rw [hst], ?_, ?_, ?_⟩
        · intro rc' hrc'
          rw [hst]
          exact alookup_aupsert_self _ _ _
        · intro hnone
          exact Option.noConfusion hnone
        · intro k hk
          rw [hst]
          show alookup k (aupsert _ _ (aupsert _ _ h.conversations)) = alookup k h.conversations
          rw [alookup_aupsert_ne _ _ _ _ hk, alookup_aupsert_ne _ _ _ _ hk]

/-- Witness for C10 at a concrete input: alice (registered) sends to the
never-seen identity "carol"; the canonical log gains the one sent
message, and the client and user tables are unchanged. -/
theorem routeMessage_frame_effect_witness :
    (handleInboundMessageWithSender hubAliceBob "alice" ⟨"carol", "yo"⟩ 4).clients
      = hubAliceBob.clients ∧
    (handleInboundMessageWithSender hubAliceBob "alice" ⟨"carol", "yo"⟩ 4).users
      = hubAliceBob.users ∧
    alookup (ConvKey "alice" (InboundMessage.toU ⟨"carol", "yo"⟩))
        (handleInboundMessageWithSender hubAliceBob "alice" ⟨"carol", "yo"⟩ 4).conversations
      = some [sentMessage hubAliceBob "alice" ⟨"carol", "yo"⟩ 4] := by
  have hmain := routeMessage_frame_effect hubAliceBob "alice" ⟨"carol", "yo"⟩ 4 rfl (by decide)
    (by
      intro sc hsc
      have hsc' : sc = ⟨"alice", 1⟩ := by
        have he : some (⟨"alice", 1⟩ : Client) = some sc := by
          rw [← hsc]
          decide
        exact (Option.some_inj.mp he).symm
      subst hsc'
      exact ⟨⟨[], false⟩, rfl, rfl, by decide⟩)
    (by
      intro rc hrc
      have hn : alookup (InboundMessage.toU ⟨"carol", "yo"⟩) hubAliceBob.clients = none := by
        decide
      rw [hn] at hrc
      exact Option.noConfusion hrc)
  exact ⟨hmain.1, hmain.2.1, by simpa using hmain.2.2.2.1 (by decide)⟩

/-! ### Claim C1 -/

theorem pairwise_connId_of (L : List (String × Client))
    (hkeys : keysNodup L)
    (hcc : ∀ p ∈ L, ∀ p' ∈ L, p.1 ≠ p'.1 → p.2.connId ≠ p'.2.connId) :
    L.Pairwise (fun p p' => p.2.connId ≠ p'.2.connId) := by
  have hkp : L.Pairwise (fun p p' => p.1 ≠ p'.1) := List.pairwise_map.mp hkeys
  exact hkp.imp_of_mem (fun ha hb hr => hcc _ ha _ hb hr)

/-- C1: `registerClient` always returns true (it never rejects), and
when an existing connection is registered for the same identity (with
the user record holding a live `CurrentConn`), the old connection's
queue is closed and the old connection is replaced: in the final state
the identity maps to the new connection, the table keys stay unique
(at most one registered connection per identity), and no panic occurs.
The hypotheses are the reachable-state invariants: table keys match
client usernames, connection ids are distinct, registered queues are
live, the new connection is fresh with an empty open queue, and the
online-status replay fits in the fresh queue. -/
theorem registerClient_evicts_and_succeeds (h : Hub) (client : Client) (now : Nat)
    (old : Client) (u : UserR) (qold : Queue)
    (hp : h.panicked = false)
    (hold : alookup client.username h.clients = some old)
    (huser : alookup client.username h.users = some u)
    (hconn : u.currentConn.isSome = true)
    (hqold : alookup old.connId h.queues = some qold) (hqcl : qold.closed = false)
    (hkeys : keysNodup h.clients)
    (hWF1 : ∀ p ∈ h.clients, p.2.username = p.1)
    (hWF2 : ∀ p ∈ h.clients, ∀ p' ∈ h.clients, p.1 ≠ p'.1 → p.2.connId ≠ p'.2.connId)
    (hWF3 : ∀ p ∈ h.clients, p.1 ≠ client.username →
      ∃ q, alookup p.2.connId h.queues = some q ∧ q.closed = false)
    (hfreshq : alookup client.connId h.queues = some ⟨[], false⟩)
    (hfreshid : ∀ p ∈ h.clients, p.2.connId ≠ client.connId)
    (hcount : (onlineStatusFrames client.username h.users).length ≤ queueCap) :
    (registerClient h client now).2 = true ∧
    (registerClient h client now).1.panicked = false ∧
    (∃ q', alookup old.connId (registerClient h client now).1.queues = some q' ∧
      q'.closed = true) ∧
    alookup client.username (registerClient h client now).1.clients = some client ∧
    keysNodup (registerClient h client now).1.clients := by
  have hne_oldnew : old.connId ≠ client.connId :=
    hfreshid (client.username, old) (alookup_mem _ _ _ hold)
  have e1 : evictStage h client.username
      = ⟨aerase client.username h.clients, h.users, h.conversations,
         aupsert old.connId ⟨qold.frames, true⟩ h.queues, false, h.nextId⟩ := by
    rw [evictStage, huser]
    dsimp only
    rw [hconn, if_pos rfl, hold]
    dsimp only
    rw [closeQueue_success h old.connId qold hp hqold hqcl]
    dsimp only
    rw [hp]
  have e3 : registerClient h client now
      = (sendOnlineList
          (sendStatusAll
            (⟨aupsert client.username client (aerase client.username h.clients),
              aupsert client.username ⟨u.username, true, some client.connId, now⟩ h.users,
              h.conversations,
              aupsert old.connId ⟨qold.frames, true⟩ h.queues, false, h.nextId⟩ : Hub)
            (aupsert client.username client (aerase client.username h.clients))
            client.username true)
          (sendStatusAll
            (⟨aupsert client.username client (aerase client.username h.clients),
              aupsert client.username ⟨u.username, true, some client.connId, now⟩ h.users,
              h.conversations,
              aupsert old.connId ⟨qold.frames, true⟩ h.queues, false, h.nextId⟩ : Hub)
            (aupsert client.username client (aerase client.username h.clients))
            client.username true).users
          client client.username, true) := by
    rw [registerClient, e1]
    dsimp only
    rw [updatedUser]
    dsimp only
    rw [huser]
    rw [broadcastStatus]
  -- Facts about the broadcast stage.
  have hCLkeys : keysNodup (aupsert client.username client (aerase client.username h.clients)) :=
    keysNodup_aupsert _ _ _ (keysNodup_aerase _ _ hkeys)
  have hmemCL : ∀ p ∈ aupsert client.username client (aerase client.username h.clients),
      p = (client.username, client) ∨ (p ∈ h.clients ∧ p.1 ≠ client.username) := by
    intro p hpm
    rcases mem_aupsert _ _ _ _ hpm with hpe | hpe
    · exact Or.inl hpe
    · exact Or.inr ⟨mem_aerase _ _ _ hpe, mem_aerase_key _ _ _ hkeys hpe⟩
  have hdist : (aupsert client.username client (aerase client.username h.clients)).Pairwise
      (fun p p' => p.2.connId ≠ p'.2.connId) := by
    refine pairwise_connId_of _ hCLkeys ?_
    intro p hpm p' hpm' hk
    rcases hmemCL p hpm with hpe | ⟨hpc, hpk⟩
    · rcases hmemCL p' hpm' with hpe' | ⟨hpc', hpk'⟩
      · exact absurd (hpe ▸ hpe' ▸ rfl) hk
      · subst hpe
        exact (hfreshid p' hpc').symm
    · rcases hmemCL p' hpm' with hpe' | ⟨hpc', hpk'⟩
      · subst hpe'
        exact hfreshid p hpc
      · exact hWF2 p hpc p' hpc' hk
  have hq3 : ∀ p ∈ aupsert client.username client (aerase client.username h.clients),
      p.1 ≠ client.username →
      ∃ q, alookup p.2.connId (aupsert old.connId ⟨qold.frames, true⟩ h.queues) = some q ∧
        q.closed = false := by
    intro p hpm hpk
    rcases hmemCL p hpm with hpe | ⟨hpc, _⟩
    · exact absurd (by rw [hpe]) hpk
    · obtain ⟨q, hq, hqc⟩ := hWF3 p hpc hpk
      refine ⟨q, ?_, hqc⟩
      rw [alookup_aupsert_ne _ _ _ _
        (hWF2 p hpc (client.username, old) (alookup_mem _ _ _ hold) hpk)]
      exact hq
  have hL1 : ∀ p ∈ aupsert client.username client (aerase client.username h.clients),
      p.1 ≠ client.username → p.2.username ≠ client.username := by
    intro p hpm hpk
    rcases hmemCL p hpm with hpe | ⟨hpc, _⟩
    · exact absurd (by rw [hpe]) hpk
    · rw [hWF1 p hpc]
      exact hpk
  have hL2 : ∀ p ∈ aupsert client.username client (aerase client.username h.clients),
      p.1 ≠ client.username → p.2.connId ≠ client.connId := by
    intro p hpm hpk
    rcases hmemCL p hpm with hpe | ⟨hpc, _⟩
    · exact absurd (by rw [hpe]) hpk
    · exact hfreshid p hpc
  obtain ⟨hbp, _⟩ := sendStatusAll_delivers
    (aupsert client.username client (aerase client.username h.clients))
    (⟨aupsert client.username client (aerase client.username h.clients),
      aupsert client.username ⟨u.username, true, some client.connId, now⟩ h.users,
      h.conversations,
      aupsert old.connId ⟨qold.frames, true⟩ h.queues, false, h.nextId⟩ : Hub)
    client.username true rfl hdist hq3
  have hcli : alookup client.username
      (sendStatusAll
        (⟨aupsert client.username client (aerase client.username h.clients),
          aupsert client.username ⟨u.username, true, some client.connId, now⟩ h.users,
          h.conversations,
          aupsert old.connId ⟨qold.frames, true⟩ h.queues, false, h.nextId⟩ : Hub)
        (aupsert client.username client (aerase client.username h.clients))
        client.username true).clients = some client := by
    rw [sendStatusAll_clients_pres _ _ _ _ _ hL1]
    exact alookup_aupsert_self _ _ _
  have hclosed := sendStatusAll_closed_stable
    (⟨aupsert client.username client (aerase client.username h.clients),
      aupsert client.username ⟨u.username, true, some client.connId, now⟩ h.users,
      h.conversations,
      aupsert old.connId ⟨qold.frames, true⟩ h.queues, false, h.nextId⟩ : Hub)
    (aupsert client.username client (aerase client.username h.clients))
    client.username true old.connId ⟨qold.frames, true⟩ (alookup_aupsert_self _ _ _) rfl
  have hqnew : alookup client.connId
      (sendStatusAll
        (⟨aupsert client.username client (aerase client.username h.clients),
          aupsert client.username ⟨u.username, true, some client.connId, now⟩ h.users,
          h.conversations,
          aupsert old.connId ⟨qold.frames, true⟩ h.queues, false, h.nextId⟩ : Hub)
        (aupsert client.username client (aerase client.username h.clients))
        client.username true).queues = some ⟨[], false⟩ := by
    rw [sendStatusAll_queue_other _ _ _ _ _ hL2]
    show alookup client.connId (aupsert old.connId ⟨qold.frames, true⟩ h.queues) = _
    rw [alookup_aupsert_ne _ _ _ _ (Ne.symm hne_oldnew)]
    exact hfreshq
  have husers : (sendStatusAll
      (⟨aupsert client.username client (aerase client.username h.clients),
        aupsert client.username ⟨u.username, true, some client.connId, now⟩ h.users,
        h.conversations,
        aupsert old.connId ⟨qold.frames, true⟩ h.queues, false, h.nextId⟩ : Hub)
      (aupsert client.username client (aerase client.username h.clients))
      client.username true).users
      = aupsert client.username ⟨u.username, true, some client.connId, now⟩ h.users :=
    sendStatusAll_users _ _ _ _
  have hcount2 : ([] : List Frame).length +
      (onlineStatusFrames client.username
        (sendStatusAll
          (⟨aupsert client.username client (aerase client.username h.clients),
            aupsert client.username ⟨u.username, true, some client.connId, now⟩ h.users,
            h.conversations,
            aupsert old.connId ⟨qold.frames, true⟩ h.queues, false, h.nextId⟩ : Hub)
          (aupsert client.username client (aerase client.username h.clients))
          client.username true).users).length ≤ queueCap := by
    rw [husers, onlineStatusFrames_aupsert]
    simpa using hcount
  obtain ⟨rp, rcli, _, _, _, rother⟩ := sendOnlineList_success
    (sendStatusAll
      (⟨aupsert client.username client (aerase client.username h.clients),
        aupsert client.username ⟨u.username, true, some client.connId, now⟩ h.users,
        h.conversations,
        aupsert old.connId ⟨qold.frames, true⟩ h.queues, false, h.nextId⟩ : Hub)
      (aupsert client.username client (aerase client.username h.clients))
      client.username true).users
    (sendStatusAll
      (⟨aupsert client.username client (aerase client.username h.clients),
        aupsert client.username ⟨u.username, true, some client.connId, now⟩ h.users,
        h.conversations,
        aupsert old.connId ⟨qold.frames, true⟩ h.queues, false, h.nextId⟩ : Hub)
      (aupsert client.username client (aerase client.username h.clients))
      client.username true)
    client client.username [] hbp hqnew hcount2
  obtain ⟨q', hq', hqcl'⟩ := hclosed
  refine ⟨by rw [e3], ?_, ?_, ?_, ?_⟩
  · rw [e3]
    exact rp
  · refine ⟨q', ?_, hqcl'⟩
    rw [e3]
    show alookup old.connId (sendOnlineList _ _ client client.username).queues = some q'
    rw [rother old.connId hne_oldnew]
    exact hq'
  · rw [e3]
    show alookup client.username (sendOnlineList _ _ client client.username).clients = some client
    rw [rcli]
    exact hcli
  · rw [e3]
    show keysNodup (sendOnlineList _ _ client client.username).clients
    rw [rcli]
    exact sendStatusAll_keysNodup _ _ _ _ hCLkeys

/-- A hub where alice is registered on connection 1 (empty open queue),
with a fresh empty open queue already allocated for connection 2. -/
def hubOldAlice : Hub :=
  ⟨[("alice", ⟨"alice", 1⟩)], [("alice", ⟨"alice", true, some 1, 0⟩)], [],
   [(1, ⟨[], false⟩), (2, ⟨[], false⟩)], false, 0⟩

/-- Witness for C1 at a concrete input: re-registering alice on a new
connection succeeds, closes the old connection's queue, and installs the
new connection. -/
theorem registerClient_evicts_witness :
    (registerClient hubOldAlice ⟨"alice", 2⟩ 9).2 = true ∧
    (∃ q', alookup 1 (registerClient hubOldAlice ⟨"alice", 2⟩ 9).1.queues = some q' ∧
      q'.closed = true) ∧
    alookup "alice" (registerClient hubOldAlice ⟨"alice", 2⟩ 9).1.clients
      = some ⟨"alice", 2⟩ := by
  have hmain := registerClient_evicts_and_succeeds hubOldAlice ⟨"alice", 2⟩ 9
    ⟨"alice", 1⟩ ⟨"alice", true, some 1, 0⟩ ⟨[], false⟩ rfl (by decide) (by decide) rfl
    rfl rfl (by decide) (by decide) (by decide)
    (by
      intro p hp hne
      have hp' : p = ("alice", (⟨"alice", 1⟩ : Client)) := by
        have hmem : p ∈ [("alice", (⟨"alice", 1⟩ : Client))] := hp
        simpa using hmem
      subst hp'
      exact absurd rfl hne)
    rfl (by decide) (by decide)
  exact ⟨hmain.1, hmain.2.2.1, hmain.2.2.2.1⟩

/-! ### Claim C4 -/

/-- A hub where alice (connection 1) has one pending frame in her queue
and bob (connection 2) has a full queue. -/
def hubUnreg : Hub :=
  ⟨[("alice", ⟨"alice", 1⟩), ("bob", ⟨"bob", 2⟩)],
   [("alice", ⟨"alice", true, some 1, 0⟩), ("bob", ⟨"bob", true, some 2, 0⟩)],
   [], [(1, ⟨[Frame.typing "bob" true], false⟩), (2, fullQ)], false, 0⟩

/-- Counterexample to C4 as stated: unregistering alice (the
currently-registered connection) does NOT close her outbound queue —
the queue held a pending frame, so the guarded close consumes that frame
and leaves the queue open — and the other registered identity bob
receives no offline status envelope: bob's queue was full, so bob is
disconnected (queue closed, removed from the table) instead. -/
theorem unregister_counterexample :
    alookup "alice" hubUnreg.clients = some ⟨"alice", 1⟩ ∧
    alookup 1 (unregisterClient hubUnreg ⟨"alice", 1⟩ 9).queues = some ⟨[], false⟩ ∧
    alookup 2 (unregisterClient hubUnreg ⟨"alice", 1⟩ 9).queues = some ⟨fullQ.frames, true⟩ ∧
    alookup "bob" (unregisterClient hubUnreg ⟨"alice", 1⟩ 9).clients = none := by
  refine ⟨by decide, by decide, by decide, by decide⟩

/-- C4 (amended): a stale unregister (the connection is not the
currently-registered one for its identity, or none is registered) leaves
the entire hub state unchanged.  Otherwise the connection is removed
from the client table, the identity's presence is marked offline with
lastSeen updated, the connection's queue is closed only if it is empty
and open — a pending frame is consumed instead and the queue stays
open — and an offline status envelope is enqueued for every other
registered identity whose queue has room (a full queue triggers the
backpressure disconnect of that identity instead); no panic occurs. -/
theorem unregisterClient_spec (h : Hub) (client : Client) (now : Nat) (q : Queue)
    (hp : h.panicked = false)
    (hkeys : keysNodup h.clients)
    (hWF1 : ∀ p ∈ h.clients, p.2.username = p.1)
    (hWF2 : ∀ p ∈ h.clients, ∀ p' ∈ h.clients, p.1 ≠ p'.1 → p.2.connId ≠ p'.2.connId)
    (hq : alookup client.connId h.queues = some q)
    (hroom : ∀ p ∈ h.clients, p.1 ≠ client.username →
      ∃ qp, alookup p.2.connId h.queues = some qp ∧ qp.closed = false ∧
        qp.frames.length < queueCap) :
    (alookup client.username h.clients = none → unregisterClient h client now = h) ∧
    (∀ c', alookup client.username h.clients = some c' → c' ≠ client →
      unregisterClient h client now = h) ∧
    (alookup client.username h.clients = some client →
      alookup client.username (unregisterClient h client now).clients = none ∧
      (∀ u, alookup client.username h.users = some u →
        alookup client.username (unregisterClient h client now).users
          = some ⟨u.username, false, none, now⟩) ∧
      (q.frames = [] → q.closed = false →
        alookup client.connId (unregisterClient h client now).queues = some ⟨[], true⟩) ∧
      (∀ f rest, q.frames = f :: rest →
        alookup client.connId (unregisterClient h client now).queues
          = some ⟨rest, q.closed⟩) ∧
      (∀ p ∈ h.clients, p.1 ≠ client.username →
        ∀ qp, alookup p.2.connId h.queues = some qp →
          alookup p.2.connId (unregisterClient h client now).queues
            = some ⟨qp.frames ++ [Frame.status client.username false], false⟩) ∧
      (unregisterClient h client now).panicked = false) := by
  refine ⟨?_, ?_, ?_⟩
  · intro hnone
    rw [unregisterClient, hnone]
  · intro c' hc' hne
    rw [unregisterClient, hc']
    dsimp only
    rw [if_neg hne]
  · intro hreg
    have e0 : unregisterClient h client now
        = broadcastStatus
            (safeClose
              (offlineUserStage { h with clients := aerase client.username h.clients }
                client.username now)
              client.connId)
            client.username false := by
      rw [unregisterClient, hreg]
      dsimp only
      rw [if_pos rfl]
    -- shorthand facts about the staged states
    have hH2clients : (offlineUserStage
        { h with clients := aerase client.username h.clients } client.username now).clients
        = aerase client.username h.clients :=
      offlineUserStage_clients _ _ _
    have hH2queues : (offlineUserStage
        { h with clients := aerase client.username h.clients } client.username now).queues
        = h.queues :=
      offlineUserStage_queues _ _ _
    have hH2pan : (offlineUserStage
        { h with clients := aerase client.username h.clients } client.username now).panicked
        = false := by
      rw [offlineUserStage_panicked]
      exact hp
    have hq2 : alookup client.connId (offlineUserStage
        { h with clients := aerase client.username h.clients } client.username now).queues
        = some q := by
      rw [hH2queues]
      exact hq
    have hH3pan : (safeClose
        (offlineUserStage { h with clients := aerase client.username h.clients }
          client.username now) client.connId).panicked = false :=
      safeClose_panicked _ _ q hH2pan hq2
    have hH3clients : (safeClose
        (offlineUserStage { h with clients := aerase client.username h.clients }
          client.username now) client.connId).clients
        = aerase client.username h.clients := by
      rw [safeClose_clients, hH2clients]
    have hH3q_other : ∀ cid, cid ≠ client.connId →
        alookup cid (safeClose
          (offlineUserStage { h with clients := aerase client.username h.clients }
            client.username now) client.connId).queues = alookup cid h.queues := by
      intro cid hcid
      rw [safeClose_queue_other _ _ _ hcid, hH2queues]
    have hmemA : ∀ p ∈ aerase client.username h.clients,
        p ∈ h.clients ∧ p.1 ≠ client.username := by
      intro p hpm
      exact ⟨mem_aerase _ _ _ hpm, mem_aerase_key _ _ _ hkeys hpm⟩
    have hconn_ne : ∀ p ∈ aerase client.username h.clients, p.2.connId ≠ client.connId := by
      intro p hpm
      obtain ⟨hpc, hpk⟩ := hmemA p hpm
      exact hWF2 p hpc (client.username, client) (alookup_mem _ _ _ hreg) hpk
    have hdist : (aerase client.username h.clients).Pairwise
        (fun p p' => p.2.connId ≠ p'.2.connId) := by
      refine pairwise_connId_of _ (keysNodup_aerase _ _ hkeys) ?_
      intro p hpm p' hpm' hk
      exact hWF2 p (hmemA p hpm).1 p' (hmemA p' hpm').1 hk
    have hqbc : ∀ p ∈ aerase client.username h.clients, p.1 ≠ client.username →
        ∃ qp, alookup p.2.connId (safeClose
          (offlineUserStage { h with clients := aerase client.username h.clients }
            client.username now) client.connId).queues = some qp ∧ qp.closed = false := by
      intro p hpm hpk
      obtain ⟨qp, hqp, hqpc, _⟩ := hroom p (hmemA p hpm).1 hpk
      refine ⟨qp, ?_, hqpc⟩
      rw [hH3q_other p.2.connId (hconn_ne p hpm)]
      exact hqp
    obtain ⟨hbp, hbdel⟩ := sendStatusAll_delivers (aerase client.username h.clients)
      (safeClose
        (offlineUserStage { h with clients := aerase client.username h.clients }
          client.username now) client.connId)
      client.username false hH3pan hdist hqbc
    have hbc : broadcastStatus
        (safeClose
          (offlineUserStage { h with clients := aerase client.username h.clients }
            client.username now) client.connId)
        client.username false
        = sendStatusAll
            (safeClose
              (offlineUserStage { h with clients := aerase client.username h.clients }
                client.username now) client.connId)
            (aerase client.username h.clients) client.username false := by
      rw [broadcastStatus, hH3clients]
    have hL1 : ∀ p ∈ aerase client.username h.clients, p.1 ≠ client.username →
        p.2.username ≠ client.username := by
      intro p hpm hpk
      rw [hWF1 p (hmemA p hpm).1]
      exact hpk
    refine ⟨?_, ?_, ?_, ?_, ?_, ?_⟩
    · rw [e0, hbc, sendStatusAll_clients_pres _ _ _ _ _ hL1, hH3clients]
      exact alookup_aerase_self _ _ hkeys
    · intro u hu
      rw [e0, hbc, sendStatusAll_users, safeClose_users, offlineUserStage]
      dsimp only
      rw [show alookup client.username
          ({ h with clients := aerase client.username h.clients } : Hub).users = some u from hu]
      dsimp only
      exact alookup_aupsert_self _ _ _
    · intro hemp hopen
      have hqq : q = ⟨[], false⟩ := by
        obtain ⟨fs, cl⟩ := q
        rw [Queue.mk.injEq]
        exact ⟨hemp, hopen⟩
      have hsc := safeClose_empty
        (offlineUserStage { h with clients := aerase client.username h.clients }
          client.username now) client.connId hH2pan (by rw [hq2, hqq])
      rw [e0, hbc, sendStatusAll_queue_other _ _ _ _ _
        (fun p hpm _ => hconn_ne p hpm), hsc]
      dsimp only
      exact alookup_aupsert_self _ _ _
    · intro f rest hfr
      have hqp : alookup client.connId (offlineUserStage
          { h with clients := aerase client.username h.clients } client.username now).queues
          = some ⟨f :: rest, q.closed⟩ := by
        rw [hq2]
        cases q with
        | mk fs cl =>
          simp only at hfr
          rw [hfr]
      have hsc := safeClose_pending _ client.connId f rest q.closed hH2pan hqp
      rw [e0, hbc, sendStatusAll_queue_other _ _ _ _ _
        (fun p hpm _ => hconn_ne p hpm), hsc]
      dsimp only
      exact alookup_aupsert_self _ _ _
    · intro p hpc hpk qp hqp
      have hpm : p ∈ aerase client.username h.clients := mem_aerase_of_mem _ _ _ hpc hpk
      obtain ⟨qp', hqp', hqpc', hqpl'⟩ := hroom p hpc hpk
      rw [hqp] at hqp'
      obtain rfl : qp = qp' := Option.some_inj.mp hqp'
      have hqp3 : alookup p.2.connId (safeClose
          (offlineUserStage { h with clients := aerase client.username h.clients }
            client.username now) client.connId).queues = some qp := by
        rw [hH3q_other p.2.connId (hconn_ne p hpm)]
        exact hqp
      obtain ⟨hpos, _⟩ := hbdel p hpm hpk qp hqp3
      rw [e0, hbc]
      exact hpos hqpl'
    · rw [e0, hbc]
      exact hbp

/-- A hub with alice (connection 1) and bob (connection 2) registered,
both queues empty and open, both users online. -/
def hubPair : Hub :=
  ⟨[("alice", ⟨"alice", 1⟩), ("bob", ⟨"bob", 2⟩)],
   [("alice", ⟨"alice", true, some 1, 0⟩), ("bob", ⟨"bob", true, some 2, 0⟩)],
   [], [(1, ⟨[], false⟩), (2, ⟨[], false⟩)], false, 0⟩

/-- Witness for the amended C4 at a concrete input: unregistering alice
removes her, marks her offline with the new lastSeen, closes her (empty)
queue, and enqueues the offline envelope on bob's queue. -/
theorem unregisterClient_spec_witness :
    alookup "alice" (unregisterClient hubPair ⟨"alice", 1⟩ 9).clients = none ∧
    alookup "alice" (unregisterClient hubPair ⟨"alice", 1⟩ 9).users
      = some ⟨"alice", false, none, 9⟩ ∧
    alookup 1 (unregisterClient hubPair ⟨"alice", 1⟩ 9).queues = some ⟨[], true⟩ ∧
    alookup 2 (unregisterClient hubPair ⟨"alice", 1⟩ 9).queues
      = some ⟨[Frame.status "alice" false], false⟩ := by
  have hmain := unregisterClient_spec hubPair ⟨"alice", 1⟩ 9 ⟨[], false⟩ rfl (by decide)
    (by decide) (by decide) rfl
    (by
      intro p hp hne
      have hp2 : p = ("alice", (⟨"alice", 1⟩ : Client)) ∨ p = ("bob", (⟨"bob", 2⟩ : Client)) := by
        have hmem : p ∈ [("alice", (⟨"alice", 1⟩ : Client)), ("bob", (⟨"bob", 2⟩ : Client))] := hp
        simpa using hmem
      rcases hp2 with hp2 | hp2
      · subst hp2
        exact absurd rfl hne
      · subst hp2
        exact ⟨⟨[], false⟩, rfl, rfl, by decide⟩)
  obtain ⟨_, _, hmain3⟩ := hmain
  obtain ⟨hcl, hus, hqe, _, hother, _⟩ := hmain3 (by decide)
  refine ⟨hcl, hus ⟨"alice", true, some 1, 0⟩ (by decide), hqe rfl rfl, ?_⟩
  have hb := hother ("bob", ⟨"bob", 2⟩) (by decide) (by decide) ⟨[], false⟩ rfl
  simpa using hb

/-! ### Claim C8 -/

theorem sendOnlineList_users (L : List (String × UserR)) (h : Hub) (client : Client)
    (username : String) :
    (sendOnlineList h L client username).users = h.users := by
  induction L generalizing h with
  | nil => rfl
  | cons p rest ih =>
    obtain ⟨un0, u0⟩ := p
    rw [sendOnlineList]
    by_cases hc : un0 ≠ username ∧ u0.online
    · rw [if_pos hc, ih, sendToClient_users]
    · rw [if_neg hc, ih]

theorem broadcastStatus_users (h : Hub) (un : String) (b : Bool) :
    (broadcastStatus h un b).users = h.users :=
  sendStatusAll_users h h.clients un b

theorem evictStage_users (h : Hub) (un : String) : (evictStage h un).users = h.users := by
  rw [evictStage]
  repeat' first | rfl | exact closeQueue_users h _ | split

theorem registerClient_users_lookup (h : Hub) (client : Client) (now : Nat) (u : String)
    (hu : (alookup u h.users).isSome = true) :
    (alookup u (registerClient h client now).1.users).isSome = true := by
  rw [registerClient]
  dsimp only
  rw [sendOnlineList_users, broadcastStatus_users]
  dsimp only
  rw [evictStage_users]
  by_cases he : u = client.username
  · subst he
    rw [alookup_aupsert_self]
    rfl
  · rw [alookup_aupsert_ne _ _ _ _ he]
    exact hu

theorem offlineUserStage_users_lookup (h : Hub) (un : String) (now : Nat) (u : String)
    (hu : (alookup u h.users).isSome = true) :
    (alookup u (offlineUserStage h un now).users).isSome = true := by
  rw [offlineUserStage]
  cases huu : alookup un h.users with
  | none => exact hu
  | some u0 =>
    dsimp only
    by_cases he : u = un
    · subst he
      rw [alookup_aupsert_self]
      rfl
    · rw [alookup_aupsert_ne _ _ _ _ he]
      exact hu

theorem unregisterClient_users_lookup (h : Hub) (client : Client) (now : Nat) (u : String)
    (hu : (alookup u h.users).isSome = true) :
    (alookup u (unregisterClient h client now).users).isSome = true := by
  rw [unregisterClient]
  cases hex : alookup client.username h.clients with
  | none => exact hu
  | some existing =>
    dsimp only
    by_cases heq : existing = client
    · rw [if_pos heq, broadcastStatus_users, safeClose_users]
      exact offlineUserStage_users_lookup _ _ _ _ hu
    · rw [if_neg heq]
      exact hu

theorem handleInbound_users (h : Hub) (fromU : String) (msg : InboundMessage) (now : Nat) :
    (handleInboundMessageWithSender h fromU msg now).users = h.users := by
  rw [handleInboundMessageWithSender]
  cases hsc : alookup fromU (appendMessageStage h fromU msg now).clients with
  | none =>
    cases hrc : alookup msg.toU (appendMessageStage h fromU msg now).clients with
    | none => rfl
    | some rc =>
      rw [markLastDelivered_users, sendToClient_users]
      rfl
  | some sc =>
    cases hrc : alookup msg.toU (appendMessageStage h fromU msg now).clients with
    | none =>
      rw [sendToClient_users]
      rfl
    | some rc =>
      rw [sendToClient_users, markLastDelivered_users, sendToClient_users, sendToClient_users]
      rfl

theorem handleTypingEvent_users (h : Hub) (fromU toU : String) (ist : Bool) :
    (handleTypingEvent h fromU toU ist).users = h.users := by
  rw [handleTypingEvent]
  cases hrc : alookup toU h.clients with
  | none => rfl
  | some rc => exact sendToClient_users h rc _

/-- C8: once an identity has a user-table entry, none of the hub
operations (register, unregister, message routing, typing routing, or
the queue-overflow cleanup in `sendToClient`) ever removes it: the
lookup stays populated after each operation (overflow cleanup leaves the
user table entirely unchanged). -/
theorem users_never_deleted (h : Hub) (u : String) (client : Client) (now : Nat)
    (fromU : String) (msg : InboundMessage) (tU : String) (ist : Bool)
    (c : Client) (f : Frame)
    (hu : (alookup u h.users).isSome = true) :
    (alookup u (registerClient h client now).1.users).isSome = true ∧
    (alookup u (unregisterClient h client now).users).isSome = true ∧
    (alookup u (handleInboundMessageWithSender h fromU msg now).users).isSome = true ∧
    (alookup u (handleTypingEvent h fromU tU ist).users).isSome = true ∧
    (sendToClient h c f).users = h.users :=
  ⟨registerClient_users_lookup h client now u hu,
   unregisterClient_users_lookup h client now u hu,
   by rw [handleInbound_users]; exact hu,
   by rw [handleTypingEvent_users]; exact hu,
   sendToClient_users h c f⟩

/-- Witness for C8 at a concrete input: the known identity "bob" (known
and offline) survives an unregister of alice, a message, and a typing
signal. -/
theorem users_never_deleted_witness :
    (alookup "bob" (⟨[], [("bob", ⟨"bob", false, none, 5⟩)], [], [], false, 0⟩ : Hub).users).isSome
        = true ∧
    (alookup "bob" (unregisterClient ⟨[], [("bob", ⟨"bob", false, none, 5⟩)], [], [], false, 0⟩
        ⟨"alice", 1⟩ 9).users).isSome = true := by
  have hmain := users_never_deleted ⟨[], [("bob", ⟨"bob", false, none, 5⟩)], [], [], false, 0⟩
    "bob" ⟨"alice", 1⟩ 9 "alice" ⟨"carol", "hi"⟩ "dave" true ⟨"eve", 2⟩
    (Frame.typing "eve" true) (by decide)
  exact ⟨by decide, hmain.2.1⟩

end Whatsdown
